/-
  Verification development for the flat-frame calibration planner
  (src/flat_parse4_0.py and the PJSR template embedded in it).

  Modelling conventions:
  * Machine doubles (Python floats, JS numbers) are modelled as exact
    rationals (ℚ).  Every numeric constant appearing in the program and in
    the claims (0.01, 0.5, 0.2, 1.5, 4.0, 3.0, 5.0, exposures, …) is a
    short decimal, and every comparison the claims depend on is a strict
    or non-strict inequality between such decimals, so the idealisation
    does not change any branch that the theorems talk about.
  * Python `None` / JS `null` become `Option.none`; fallible operations
    (float parsing, file reads, XML parsing) return `Option` explicitly,
    so "never raises" in the source corresponds to a total Lean function
    in which every failure path is an explicit `none` branch.
  * Dictionaries (Python `dict`, JS objects) are association lists kept in
    insertion order, which matches Python ≥3.7 dicts; the special JS
    `for-in` enumeration order (integer-like keys first, ascending) is
    modelled separately by `jsForInOrder`.
-/
import Mathlib

namespace FlatParse

/-! ## Rounding helpers

`kexp` in the PJSR template is `Math.round(x*1000)/1000` followed by
`toString`; two exposures get the same string key iff `Math.round(x*1000)`
agrees, so the key is modelled by that integer (thousandths).  JS
`Math.round` rounds halves towards +∞, i.e. `⌊x + 1/2⌋`.

The Python bucket key in `scan_flats` is `f"{round(ex,3):.3f}"`;
Python `round` rounds halves to even.  Again the formatted string is
determined by the rounded value in thousandths, so the key is modelled by
that integer.  (The distinction between the float strings "-0.000" and
"0.000" is collapsed; no claim involves negative exposures.) -/

/-- JS `Math.round`: round half towards +∞. -/
def jsRound (q : ℚ) : ℤ := ⌊q + 1/2⌋

/-- Key used by the PJSR `kexp`/`groupByExp`: `Math.round(x*1000)` (the
`/1000` and `toString` steps are injective on these integers). -/
def kexpZ (q : ℚ) : ℤ := jsRound (q * 1000)

/-- Round half to even (Python `round` on the ideal decimal value). -/
def roundHalfEven (q : ℚ) : ℤ :=
  let n := ⌊q⌋
  if q - n < 1/2 then n
  else if 1/2 < q - n then n + 1
  else if 2 ∣ n then n else n + 1

/-- Python bucket key of `scan_flats`: `round(ex, 3)` in thousandths
(the `:.3f` formatting is injective on these integers). -/
def pyKey3 (q : ℚ) : ℤ := roundHalfEven (q * 1000)

/-! ## Small Python/JS string helpers -/

/-- JS string truthiness for an optional string: `null` and `""` are falsy. -/
def truthyS : Option String → Bool
  | none => false
  | some s => !(s = "")

/-- `s.startswith(pre)` over the character lists (ASCII data). -/
def strStartsWith (s pre : String) : Bool := pre.data.isPrefixOf s.data

/-- `s.endswith(suf)` over the character lists. -/
def strEndsWith (s suf : String) : Bool := suf.data.isSuffixOf s.data

/-- `.lower()` (ASCII; the data never carries non-ASCII letters). -/
def strLower (s : String) : String := String.mk (s.data.map Char.toLower)

/-- `.upper()` (ASCII). -/
def strUpper (s : String) : String := String.mk (s.data.map Char.toUpper)

/-- Decimal digit list to a natural number (the value of `int(ds)`). -/
def digitsToNat (ds : List Char) : ℕ :=
  ds.foldl (fun a c => 10 * a + (c.toNat - 48)) 0

/-- Value of a decimal literal with integer digits `intd` and fractional
digits `fracd` (what Python `float` / JS `parseFloat` return on
`"intd.fracd"`). -/
def numVal (intd fracd : List Char) : ℚ :=
  (digitsToNat intd : ℚ) + (digitsToNat fracd : ℚ) / (10 : ℚ) ^ fracd.length

/-- The whitespace characters stripped by Python `float` and matched by the
regex class `\s` (ASCII core; the Unicode extras never occur in the data). -/
def isPyWs (c : Char) : Bool :=
  c = ' ' ∨ c = '\t' ∨ c = '\n' ∨ c = '\x0d' ∨ c = '\x0b' ∨ c = '\x0c'

/-- Python `float(s)` on a string, as far as finite decimal/scientific
literals go: optional surrounding whitespace, optional sign, digits with an
optional fractional part (at least one digit overall), optional exponent.
`inf`/`nan`/underscored literals have no rational value and are mapped to
`none`; no header in the claims' scope carries them. -/
def pyFloat? (s : String) : Option ℚ :=
  let cs := ((s.data.dropWhile isPyWs).reverse.dropWhile isPyWs).reverse
  let sgncs : ℚ × List Char :=
    match cs with
    | '+' :: r => (1, r)
    | '-' :: r => (-1, r)
    | r => (1, r)
  let sgn := sgncs.1
  let cs1 := sgncs.2
  let intd := cs1.takeWhile Char.isDigit
  let r1 := cs1.dropWhile Char.isDigit
  let fr : List Char × List Char :=
    match r1 with
    | '.' :: t => (t.takeWhile Char.isDigit, t.dropWhile Char.isDigit)
    | t => ([], t)
  let fracd := fr.1
  let r2 := fr.2
  if intd.isEmpty && fracd.isEmpty then none
  else
    match r2 with
    | [] => some (sgn * numVal intd fracd)
    | e :: t =>
      if e = 'e' ∨ e = 'E' then
        let esgn : ℤ × List Char :=
          match t with
          | '+' :: u => (1, u)
          | '-' :: u => (-1, u)
          | u => (1, u)
        let ed := esgn.2.takeWhile Char.isDigit
        if ed.isEmpty || !(esgn.2.dropWhile Char.isDigit).isEmpty then none
        else some (sgn * numVal intd fracd * (10 : ℚ) ^ (esgn.1 * (digitsToNat ed : ℤ)))
      else none

/-! ## The acquisition-metadata data model -/

/-- `FrameMetadata`: the dict produced by `read_meta`
(`exposure`/`binning`/`gain`/`offset`/`temp`, all nullable). -/
structure Meta where
  exposure : Option ℚ
  binning : Option String
  gain : Option ℚ
  offset : Option ℚ
  temp : Option ℚ
deriving DecidableEq, Repr

/-- The four advisory acquisition fields: shape of the `want` dicts built in
`scan_flats` and of the candidate attributes read by the PJSR `metaScore`. -/
structure Acq where
  binning : Option String
  gain : Option ℚ
  offset : Option ℚ
  temp : Option ℚ
deriving DecidableEq, Repr

/-- The advisory fields of a `Meta`. -/
def Meta.acq (m : Meta) : Acq := ⟨m.binning, m.gain, m.offset, m.temp⟩

/-- The all-null profile. -/
def Acq.nullAcq : Acq := ⟨none, none, none, none⟩

/-! ## Path helpers (`os.path`, `pathlib`)

The program runs on Windows ("Tested on: Windows 11"), where both `/` and
`\` separate components; joining uses a single separator character which we
normalise to `/` (no claim depends on which separator is produced). -/

/-- `os.path.basename`: the part after the last path separator. -/
def pyBasename (p : String) : String :=
  String.mk ((p.data.reverse.takeWhile (fun c => !(c = '/' ∨ c = '\\'))).reverse)

/-- The extension part of `os.path.splitext(name)` for a plain file name:
everything from the last dot that has some earlier non-dot character;
leading dots alone do not start an extension. -/
def pySplitextExt (name : String) : String :=
  let cs := name.data
  let lead := (cs.takeWhile (fun c => c = '.')).length
  let stem := cs.drop lead
  if stem.any (fun c => c = '.') then
    String.mk ('.' :: (stem.reverse.takeWhile (fun c => !(c = '.'))).reverse)
  else ""

/-- `pathlib.Path(p).suffix`: on the final component `name`, the slice from
the last dot, provided that dot is neither the first nor the last
character of `name`. -/
def pathlibSuffix (p : String) : String :=
  let name := (pyBasename p).data
  let revIdx := name.reverse.findIdx (fun c => c = '.')
  if revIdx < name.length then
    let i := name.length - 1 - revIdx
    if 0 < i ∧ i < name.length - 1 then String.mk (name.drop i) else ""
  else ""

/-- `os.path.join(d, n)` for a directory and a plain file name (separator
normalised to `/`). -/
def osJoin (d n : String) : String :=
  if d = "" then n
  else if strEndsWith d "/" ∨ strEndsWith d "\\" then d ++ n
  else d ++ "/" ++ n

/-- The PJSR `joinPath(a,b)`: backslash separator if `a` contains one, else
slash. -/
def joinPathJS (a b : String) : String :=
  if a = "" then b
  else if strEndsWith a "/" ∨ strEndsWith a "\\" then a ++ b
  else if a.data.any (fun c => c = '\\') then a ++ "\\" ++ b
  else a ++ "/" ++ b

/-! ## Stable sorting

JS `Array.prototype.sort` (ES2019, as in PixInsight's engine for consistent
comparators) and Python `sorted` are stable sorts; any stable sort computes
the same list, so both are modelled by stable insertion sort. -/

/-- Insert `x` after every already-placed element `y` with `le y x`
(stability: equal elements keep their original relative order). -/
def insSorted (le : α → α → Bool) (x : α) : List α → List α
  | [] => [x]
  | y :: ys => if le y x then y :: insSorted le x ys else x :: y :: ys

/-- Stable insertion sort. -/
def sortedBy (le : α → α → Bool) : List α → List α
  | [] => []
  | x :: xs => insSorted le x (sortedBy le xs)

/-! ## Filename exposure inference (`_EXPOSURE_NAME_RES`,
`_infer_exposure_from_name`)

The three patterns, in the order of the `_EXPOSURE_NAME_RES` list:
1. `(?<![A-Za-z])(\d+(?:\.\d+)?)\s*s(?=[_\- \.]|$)` (IGNORECASE),
2. `EXPOSURE[_\-=: ]?(\d+(?:\.\d+)?)` (IGNORECASE),
3. `(?<![A-Za-z])S(?:IN)?\s*(\d+(?:\.\d+)?)\s*s(?=[_\- \.]|$)` (IGNORECASE).

Each is translated to a deterministic matcher: greedy digit runs cannot be
usefully shortened by backtracking here (shortening a `\d+` leaves a digit
where `.` or `s` is required, shortening `\s*` leaves a whitespace where
`s` is required, and dropping a successfully started fraction leaves a `.`
where `s` is required), so greedy-first matching is exact.  `re.search`
tries start positions left to right, modelled by the `search…` scanners. -/

/-- The lookahead class `(?=[_\- \.]|$)`. -/
def lookNumS : List Char → Bool
  | [] => true
  | c :: _ => c = '_' ∨ c = '-' ∨ c = ' ' ∨ c = '.'

/-- Match `(\d+(?:\.\d+)?)\s*s(?=[_\- \.]|$)` at the head of `cs`
(IGNORECASE makes `s` also match `S`).  Returns the captured integer and
fraction digit runs. -/
def matchNumS (cs : List Char) : Option (List Char × List Char) :=
  let intd := cs.takeWhile Char.isDigit
  if intd.isEmpty then none
  else
    let r1 := cs.dropWhile Char.isDigit
    let fr : List Char × List Char :=
      match r1 with
      | '.' :: t =>
        let d2 := t.takeWhile Char.isDigit
        if d2.isEmpty then ([], r1) else (d2, t.dropWhile Char.isDigit)
      | _ => ([], r1)
    match fr.2.dropWhile isPyWs with
    | c :: tail => if (c = 's' ∨ c = 'S') ∧ lookNumS tail then some (intd, fr.1) else none
    | [] => none

/-- `re.search` scan for pattern 1: leftmost start position whose previous
character is not `[A-Za-z]` (the lookbehind) and where `matchNumS` succeeds. -/
def searchNumS : Option Char → List Char → Option (List Char × List Char)
  | _, [] => none
  | prev, c :: rest =>
    if (match prev with | some p => !p.isAlpha | none => true) then
      match matchNumS (c :: rest) with
      | some g => some g
      | none => searchNumS (some c) rest
    else searchNumS (some c) rest

/-- Case-insensitive literal: strip `pat` from the head of `cs`. -/
def stripCI : List Char → List Char → Option (List Char)
  | [], cs => some cs
  | _ :: _, [] => none
  | p :: ps, c :: cs => if c.toLower = p.toLower then stripCI ps cs else none

/-- Match `EXPOSURE[_\-=: ]?(\d+(?:\.\d+)?)` at the head of `cs`
(the optional separator class is disjoint from digits, so consuming it
greedily when present is exact). -/
def matchExposureTok (cs : List Char) : Option (List Char × List Char) :=
  match stripCI "EXPOSURE".data cs with
  | none => none
  | some r1 =>
    let r2 := match r1 with
      | c :: t => if c = '_' ∨ c = '-' ∨ c = '=' ∨ c = ':' ∨ c = ' ' then t else r1
      | [] => r1
    let intd := r2.takeWhile Char.isDigit
    if intd.isEmpty then none
    else
      match r2.dropWhile Char.isDigit with
      | '.' :: t =>
        let d2 := t.takeWhile Char.isDigit
        if d2.isEmpty then some (intd, []) else some (intd, d2)
      | _ => some (intd, [])

/-- `re.search` scan for pattern 2 (no lookbehind). -/
def searchExposureTok : List Char → Option (List Char × List Char)
  | [] => none
  | c :: rest =>
    match matchExposureTok (c :: rest) with
    | some g => some g
    | none => searchExposureTok rest

/-- Match `S(?:IN)?\s*(\d+(?:\.\d+)?)\s*s(?=[_\- \.]|$)` at the head of
`cs`: the greedy optional `IN` branch is tried first, then the branch
without it. -/
def matchSTok (cs : List Char) : Option (List Char × List Char) :=
  match cs with
  | [] => none
  | c :: rest =>
    if c = 's' ∨ c = 'S' then
      match stripCI "IN".data rest with
      | some r2 =>
        match matchNumS (r2.dropWhile isPyWs) with
        | some g => some g
        | none => matchNumS (rest.dropWhile isPyWs)
      | none => matchNumS (rest.dropWhile isPyWs)
    else none

/-- `re.search` scan for pattern 3 (same lookbehind as pattern 1). -/
def searchSTok : Option Char → List Char → Option (List Char × List Char)
  | _, [] => none
  | prev, c :: rest =>
    if (match prev with | some p => !p.isAlpha | none => true) then
      match matchSTok (c :: rest) with
      | some g => some g
      | none => searchSTok (some c) rest
    else searchSTok (some c) rest

/-- `_infer_exposure_from_name`: patterns applied to the basename in list
order, first successful match wins; `float` of a captured
`digits(.digits)?` group never fails. -/
def inferExposureFromName (path : String) : Option ℚ :=
  let name := (pyBasename path).data
  match searchNumS none name with
  | some g => some (numVal g.1 g.2)
  | none =>
    match searchExposureTok name with
    | some g => some (numVal g.1 g.2)
    | none => (searchSTok none name).map (fun g => numVal g.1 g.2)

/-- Modelled from the spec: the pattern order the specification states —
"an explicit `EXPOSURE=` token, then a trailing `<number>s` token, then a
`S<number>s` token", first successful match winning — applied to the same
three patterns.  Used only to compare against `inferExposureFromName`. -/
def specOrderInfer (path : String) : Option ℚ :=
  let name := (pyBasename path).data
  match searchExposureTok name with
  | some g => some (numVal g.1 g.2)
  | none =>
    match searchNumS none name with
    | some g => some (numVal g.1 g.2)
    | none => (searchSTok none name).map (fun g => numVal g.1 g.2)

/-! ## Header readers (`_coerce_float`, `_fits_meta`, `_xisf_meta`,
`read_meta`)

A FITS header is a list of (keyword, value) cards; values can be numbers,
strings, booleans, or value-less (`nullv`).  A failed `fits.open` (or a
missing astropy) is the `none` header.  An XISF file either yields its
`FITSKeyword`/`Property` elements, or `none` when the closing-marker scan
within the byte cap or `ET.fromstring` fails. -/

/-- A FITS header card value. -/
inductive HdrVal
  | num (q : ℚ)
  | str (s : String)
  | boolv (b : Bool)
  | nullv
deriving DecidableEq, Repr

/-- Python `str(v)` for a header value as used on binning
(`str(bn).upper()`); the float repr is approximated by the rational repr —
no claim depends on the exact digits of a numeric binning. -/
def HdrVal.pyStr : HdrVal → String
  | .num q => toString q
  | .str s => s
  | .boolv b => if b then "True" else "False"
  | .nullv => "None"

/-- `v.strip("'")` applied when the string both starts and ends with a
quote (`_coerce_float`'s quoted-number handling).  `strip` removes every
leading and trailing quote. -/
def stripQuotes (s : String) : String :=
  if strStartsWith s "'" ∧ strEndsWith s "'" then
    String.mk (((s.data.dropWhile (fun c => c = '\'')).reverse.dropWhile
      (fun c => c = '\'')).reverse)
  else s

/-- `_coerce_float`: `None` stays `None`; quoted strings are unquoted;
`float(v)` failures are swallowed and become `None`.  (`float` of a Python
bool is 1.0/0.0.) -/
def coerceFloat : Option HdrVal → Option ℚ
  | none => none
  | some .nullv => none
  | some (.num q) => some q
  | some (.boolv b) => some (if b then 1 else 0)
  | some (.str s) => pyFloat? (stripQuotes s)

/-- The alias lists `_FITS_KEYS_*`. -/
def keysExptime : List String := ["EXPTIME", "EXPOSURE", "EXPOSURETIME", "X_EXPOSURE"]

def keysBin : List String := ["XBINNING", "BINNING", "CCDBINNING", "BINNING_MODE"]

def keysGain : List String := ["GAIN", "EGAIN"]

def keysOffset : List String := ["OFFSET", "BLACKLEVEL"]

def keysTemp : List String := ["CCD-TEMP", "CCD_TEMP", "SENSOR_TEMP", "SENSOR-TEMP"]

/-- The inner `get(keys)` of `_fits_meta`: first alias present in the
header wins (first card for a duplicated keyword). -/
def hdrGet (hdr : List (String × HdrVal)) : List String → Option HdrVal
  | [] => none
  | k :: ks =>
    match hdr.find? (fun p => decide (p.1 = k)) with
    | some p => some p.2
    | none => hdrGet hdr ks

/-- The degraded record every parse failure falls back to:
`{exposure: inferred-from-filename-or-null, all other fields null}`. -/
def fallbackMeta (path : String) : Meta :=
  ⟨inferExposureFromName path, none, none, none, none⟩

/-- `_fits_meta`: header fields through `_coerce_float`, name inference
when no alias yields a numeric exposure, full fallback when the file
cannot be opened/parsed (or astropy is absent).  A value-less binning card
behaves as an absent one. -/
def fitsMeta (hdr : Option (List (String × HdrVal))) (path : String) : Meta :=
  match hdr with
  | none => fallbackMeta path
  | some h =>
    let ex := match coerceFloat (hdrGet h keysExptime) with
      | some q => some q
      | none => inferExposureFromName path
    let bn : Option String := match hdrGet h keysBin with
      | some .nullv => none
      | some v => some (strUpper v.pyStr)
      | none => none
    ⟨ex, bn, coerceFloat (hdrGet h keysGain), coerceFloat (hdrGet h keysOffset),
      coerceFloat (hdrGet h keysTemp)⟩

/-- An XISF `FITSKeyword` element, reduced to the attributes and text the
extractor reads. -/
structure XFitsKeyElem where
  nameAttr : Option String
  keywordAttr : Option String
  valueAttr : Option String
  text : Option String
deriving DecidableEq, Repr

/-- An XISF `Property` element. -/
structure XPropElem where
  idAttr : Option String
  valueAttr : Option String
  text : Option String
deriving DecidableEq, Repr

/-- The element lists of a successfully located and parsed XISF header. -/
structure XisfFields where
  fitsKeys : List XFitsKeyElem
  props : List XPropElem
deriving DecidableEq, Repr

/-- Python dict assignment `m[k] = v`: overwrite in place, else append
(insertion order preserved). -/
def upsert (m : List (String × α)) (k : String) (v : α) : List (String × α) :=
  match m with
  | [] => [(k, v)]
  | (k0, v0) :: rest => if k0 = k then (k0, v) :: rest else (k0, v0) :: upsert rest k v

/-- Python `a or b` on nullable strings: falsy (`None` or `""`) selects `b`. -/
def pyOrS (a b : Option String) : Option String := if truthyS a then a else b

/-- The `vals` dict of `_xisf_meta`: keyword name from `name`/`keyword`
attributes, value from the `value` attribute with text fallback when the
attribute is falsy, empty names skipped. -/
def xisfVals (ks : List XFitsKeyElem) : List (String × Option String) :=
  ks.foldl (fun m k =>
    let name := strUpper ((pyOrS k.nameAttr (pyOrS k.keywordAttr (some ""))).getD "")
    let val := if ¬truthyS k.valueAttr ∧ truthyS k.text then k.text else k.valueAttr
    if name = "" then m else upsert m name val) []

/-- The `props` dict of `_xisf_meta` (text fallback only when the value
attribute is `None`, matching `if pv is None and p.text`). -/
def xisfProps (ps : List XPropElem) : List (String × Option String) :=
  ps.foldl (fun m p =>
    let pid := strUpper ((pyOrS p.idAttr (some "")).getD "")
    let pv := if p.valueAttr = none ∧ truthyS p.text then p.text else p.valueAttr
    if pid = "" then m else upsert m pid pv) []

/-- Python substring test `k in pid`: `needle` occurs at some position. -/
def pyInStr (needle hay : String) : Bool :=
  (List.range (hay.data.length + 1)).any (fun i => needle.data.isPrefixOf (hay.data.drop i))

/-- The alias scan over `vals` inside `pick`: a present key returns its
stored value even when that value is null, stopping the scan. -/
def xisfPickVals (vals : List (String × Option String)) : List String → Option (Option String)
  | [] => none
  | k :: ks =>
    match vals.find? (fun p => decide (p.1 = k)) with
    | some p => some p.2
    | none => xisfPickVals vals ks

/-- The substring scan over `props` inside `pick`. -/
def xisfPickProps (props : List (String × Option String)) : List String → Option (Option String)
  | [] => none
  | k :: ks =>
    match props.find? (fun p => pyInStr k p.1) with
    | some p => some p.2
    | none => xisfPickProps props ks

/-- `pick(keys, alt_props)` of `_xisf_meta`. -/
def xisfPick (vals props : List (String × Option String)) (keys altProps : List String) :
    Option String :=
  match xisfPickVals vals keys with
  | some v => v
  | none =>
    match xisfPickProps props altProps with
    | some v => v
    | none => none

/-- `_xisf_meta`, from the element lists onward; `none` fields stand for a
missing closing marker within the byte cap, an unreadable file, or an
`ET.fromstring` failure, all of which degrade identically. -/
def xisfMeta (fields : Option XisfFields) (path : String) : Meta :=
  match fields with
  | none => fallbackMeta path
  | some f =>
    let vals := xisfVals f.fitsKeys
    let props := xisfProps f.props
    let ex := match coerceFloat ((xisfPick vals props keysExptime ["EXPOSURE", "EXPTIME"]).map .str) with
      | some q => some q
      | none => inferExposureFromName path
    let bn := (xisfPick vals props keysBin ["BINNING"]).map strUpper
    ⟨ex, bn,
      coerceFloat ((xisfPick vals props keysGain ["GAIN"]).map .str),
      coerceFloat ((xisfPick vals props keysOffset ["OFFSET", "BLACKLEVEL"]).map .str),
      coerceFloat ((xisfPick vals props keysTemp ["TEMP"]).map .str)⟩

/-- What the two format readers would yield for one on-disk file: `none`
marks the corresponding read/parse failure. -/
structure DiskFile where
  fitsHeader : Option (List (String × HdrVal))
  xisfFields : Option XisfFields

/-- `read_meta`: extension dispatch via `Path(path).suffix.lower()`.
Total by construction — every failure of the underlying readers is an
explicit `none` that degrades to `fallbackMeta`. -/
def readMeta (path : String) (d : DiskFile) : Meta :=
  if strLower (pathlibSuffix path) = ".fits" ∨ strLower (pathlibSuffix path) = ".fit" then
    fitsMeta d.fitsHeader path
  else if strLower (pathlibSuffix path) = ".xisf" then xisfMeta d.xisfFields path
  else fallbackMeta path

/-! ## The dark catalog and the PJSR similarity score (`metaScore`) -/

/-- The four dark kinds of `_classify_dark_type` / the PJSR catalog. -/
inductive DarkType
  | masterDarkFlat
  | masterDark
  | darkFlat
  | dark
deriving DecidableEq, Repr

/-- One `darkCatalog` entry (`path`, `type`, `exposure` plus the advisory
fields read by `metaScore`). -/
structure CatEntry where
  path : String
  type : DarkType
  exposure : ℚ
  binning : Option String
  gain : Option ℚ
  offset : Option ℚ
  temp : Option ℚ
deriving DecidableEq, Repr

/-- The advisory fields of a catalog entry. -/
def CatEntry.acqOf (c : CatEntry) : Acq := ⟨c.binning, c.gain, c.offset, c.temp⟩

/-- The `CFG.match` policy object. -/
structure MatchCfg where
  enforceBinning : Bool
  preferSameGainOffset : Bool
  preferClosestTemp : Bool
  maxTempDeltaC : ℚ
deriving DecidableEq, Repr

/-- The (only) match policy the Python side ever ships:
`{"enforceBinning": True, "preferSameGainOffset": True,
"preferClosestTemp": True, "maxTempDeltaC": 5.0}`. -/
def cfgMatch : MatchCfg := ⟨true, true, true, 5⟩

/-- The proximity test of `metaScore` for a numeric pair:
`!isNaN(x) && !isNaN(y) && Math.abs(x - y) < tol` (`safeNum` maps JS
`null`/`undefined` to NaN, so "not NaN" means "value present"). -/
def closeNum (x y : Option ℚ) (tol : ℚ) : Bool :=
  match x, y with
  | some a, some b => |a - b| < tol
  | _, _ => false

/-- The temperature distance `dt = Math.abs(ct - wt)` when both values are
present (`!isNaN(ct) && !isNaN(wt)`), else no value. -/
def tempDelta (x y : Option ℚ) : Option ℚ :=
  match x, y with
  | some a, some b => some |a - b|
  | _, _ => none

/-- The PJSR `metaScore`, as a sequence of conditional additions: +3 on an
enforced, truthy, equal binning; +2 on a close gain and +2 on a close
offset when `preferSameGainOffset`; and, when `preferClosestTemp` and both
temperatures are present with `dt <= maxTempDeltaC`, the decaying bonus
`1.5 - dt*0.2`. -/
def metaScore (c want : Acq) (m : MatchCfg) : ℚ :=
  let s0 : ℚ := 0
  let s1 := if m.enforceBinning && truthyS want.binning && truthyS c.binning
               && decide (c.binning = want.binning) then s0 + 3 else s0
  let s2 := if m.preferSameGainOffset && closeNum c.gain want.gain (1/100)
              then s1 + 2 else s1
  let s3 := if m.preferSameGainOffset && closeNum c.offset want.offset (1/2)
              then s2 + 2 else s2
  match tempDelta c.temp want.temp with
  | some dt =>
    if m.preferClosestTemp && decide (dt ≤ m.maxTempDeltaC) then s3 + (3/2 - dt * (1/5))
    else s3
  | none => s3

/-- Modelled from the spec's wording: the score as a plain sum of the four
bonuses ("the similarity score equals the sum of: 3 if …; 2 if …; 2 if …;
and 1.5 − 0.2·|dT| if …").  "Known" for the string-valued binning means
present and non-empty; for numeric fields it means present. -/
def claimScore (c want : Acq) (m : MatchCfg) : ℚ :=
  (if m.enforceBinning && truthyS want.binning && truthyS c.binning
      && decide (c.binning = want.binning) then (3 : ℚ) else 0)
  + (if m.preferSameGainOffset && closeNum c.gain want.gain (1/100) then (2 : ℚ) else 0)
  + (if m.preferSameGainOffset && closeNum c.offset want.offset (1/2) then (2 : ℚ) else 0)
  + (match tempDelta c.temp want.temp with
     | some dt =>
       if m.preferClosestTemp && decide (dt ≤ m.maxTempDeltaC) then 3/2 - (1/5) * dt
       else 0
     | none => 0)

/-! ## `groupByExp` and `pickDarkFor` -/

/-- Append `x` to the bucket of key `k`, creating the bucket at the end when
absent (JS `(m[k]=m[k]||[]).push(c)` on an insertion-ordered object, and
Python `bins.setdefault(k, []).append(p)`). -/
def addToBin (m : List (ℤ × List α)) (k : ℤ) (x : α) : List (ℤ × List α) :=
  match m with
  | [] => [(k, [x])]
  | (k0, xs) :: rest => if k0 = k then (k0, xs ++ [x]) :: rest else (k0, xs) :: addToBin rest k x

/-- `groupByExp(cats, typeName)`: bucket the entries of one kind by their
`kexp` key. -/
def groupByExp (cats : List CatEntry) (t : DarkType) : List (ℤ × List CatEntry) :=
  cats.foldl (fun m c => if c.type = t then addToBin m (kexpZ c.exposure) c else m) []

/-- `m[k]` with a missing key reading as the empty list. -/
def lookupBin (m : List (ℤ × List α)) (k : ℤ) : List α :=
  match m.find? (fun p => decide (p.1 = k)) with
  | some p => p.2
  | none => []

/-- The catalog entries of kind `t` whose exposure has `kexp` key `k`, in
catalog order. -/
def entriesAt (cats : List CatEntry) (t : DarkType) (k : ℤ) : List CatEntry :=
  cats.filter (fun e => decide (e.type = t) && decide (kexpZ e.exposure = k))

/-- The PJSR best-candidate loop: running best and best score, strict
improvement only (`if (s > bestS)`), started at `bestS = -1`. -/
def bestLoop (want : Acq) (m : MatchCfg) (best : CatEntry) (bestS : ℚ) :
    List CatEntry → CatEntry
  | [] => best
  | c :: rest =>
    if bestS < metaScore c.acqOf want m then bestLoop want m c (metaScore c.acqOf want m) rest
    else bestLoop want m best bestS rest

/-- The full tier-1/tier-3 selection over a bucket:
`var best = B[0], bestS = -1; for (i = 0; i < B.length; i++) …`. -/
def pickBest (l : List CatEntry) (want : Acq) (m : MatchCfg) : Option CatEntry :=
  match l with
  | [] => none
  | c0 :: _ => some (bestLoop want m c0 (-1) l)

/-- First element attaining the maximum of `f` over `b :: l` (ties keep the
earlier element). -/
def firstMaxBy (f : α → ℚ) (b : α) : List α → α
  | [] => b
  | c :: rest => if f b < f c then firstMaxBy f c rest else firstMaxBy f b rest

/-- The `kexp` string of a key `z` (thousandths): decimal of `z/1000` with
trailing fractional zeros trimmed, as JS number `toString` prints it. -/
def kexpStr (z : ℤ) : String :=
  let sign := if z < 0 then "-" else ""
  let n := z.natAbs
  let ip := n / 1000
  let fr := n % 1000
  if fr = 0 then sign ++ toString ip
  else
    let frs := toString fr
    let padded := String.mk (List.replicate (3 - frs.length) '0') ++ frs
    let trimmed := String.mk ((padded.data.reverse.dropWhile (fun c => c = '0')).reverse)
    sign ++ toString ip ++ "." ++ trimmed

/-- JS `for (k in obj)` enumeration: canonical non-negative integer keys
(array indices) first, in ascending numeric order, then the remaining keys
in insertion order.  A `kexp` key string is integer-like iff the key value
is a non-negative whole number of seconds below 2^32−1. -/
def jsIntegerKey (z : ℤ) : Bool :=
  decide (0 ≤ z) && decide ((1000 : ℤ) ∣ z) && decide (z < 1000 * (2 ^ 32 - 1))

/-- The `for-in` iteration order over a bucket map. -/
def jsForInOrder (m : List (ℤ × α)) : List (ℤ × α) :=
  sortedBy (fun a b => decide (a.1 ≤ b.1)) (m.filter (fun p => jsIntegerKey p.1))
    ++ m.filter (fun p => !jsIntegerKey p.1)

/-- The result object of `pickDarkFor`
(`{path, optimize, kind}`; `optimize` is `requiresOptimization`). -/
structure Selection where
  path : String
  optimize : Bool
  kind : String
deriving DecidableEq, Repr

/-- The configuration visible to `pickDarkFor`: the per-directory cache
location, `CFG.allowNearestExposureWithOptimize`, the `File.exists` state
of the cache, and `CFG.match`. -/
structure PickEnv where
  cacheDir : String
  allowNearest : Bool
  cacheExists : String → Bool
  matchCfg : MatchCfg

/-- A nearest-exposure candidate of tier 5: an existing master dark, or a
cache path for a dark stack whose exposure is `parseFloat` of its key. -/
structure NearCand where
  path : String
  exposure : ℚ
deriving DecidableEq, Repr

/-- The cache path `joinPath(cacheDir, "MasterDark_"+kk+"s.xisf")`. -/
def dCachePath (env : PickEnv) (k : ℤ) : String :=
  joinPathJS env.cacheDir ("MasterDark_" ++ kexpStr k ++ "s.xisf")

/-- The `allMD` array of tier 5: every MASTERDARK entry across all
exposures, then one synthesized-cache candidate per DARK exposure key,
both in `for-in` order. -/
def allMDOf (cats : List CatEntry) (env : PickEnv) : List NearCand :=
  ((jsForInOrder (groupByExp cats .masterDark)).map
      (fun p => p.2.map (fun c => (⟨c.path, c.exposure⟩ : NearCand)))).flatten
    ++ (jsForInOrder (groupByExp cats .dark)).map
      (fun p => (⟨dCachePath env p.1, (p.1 : ℚ) / 1000⟩ : NearCand))

/-- The `integrateToMaster` invocations of tier 5: one per DARK exposure
key whose cache file does not exist yet. -/
def dBuildsOf (cats : List CatEntry) (env : PickEnv) : List String :=
  (jsForInOrder (groupByExp cats .dark)).filterMap (fun p =>
    if env.cacheExists (dCachePath env p.1) then none else some (dCachePath env p.1))

/-- The tier-5 `allMD.sort(...)` result: stable sort by
`|candidate.exposure - exp|`, the measure the JS comparator
`Math.abs(a.exposure-exp) - Math.abs(b.exposure-exp)` orders by. -/
def nearestSorted (exp : ℚ) (cats : List CatEntry) (env : PickEnv) : List NearCand :=
  sortedBy (fun a b => decide (|a.exposure - exp| ≤ |b.exposure - exp|)) (allMDOf cats env)

/-- `pickDarkFor(exp, want, cacheDir, cats, rej, hintsCal, match)`.

The second component lists the output paths of the `integrateToMaster`
calls the tier performs (synthesis requests); tiers 1 and 3 perform none.
Tier order as in the source: exact MASTERDARKFLAT, DARKFLAT build, exact
MASTERDARK, DARK build, nearest-exposure (when enabled), else no match. -/
def pickDarkFor (exp : ℚ) (want : Acq) (cats : List CatEntry) (env : PickEnv) :
    Option Selection × List String :=
  match pickBest (lookupBin (groupByExp cats .masterDarkFlat) (kexpZ exp)) want env.matchCfg with
  | some b => (some ⟨b.path, false, "MasterDarkFlat(exact)"⟩, [])
  | none =>
    if !(lookupBin (groupByExp cats .darkFlat) (kexpZ exp)).isEmpty then
      (some ⟨joinPathJS env.cacheDir ("MasterDarkFlat_" ++ kexpStr (kexpZ exp) ++ "s.xisf"),
        false, "MasterDarkFlat(built)"⟩,
       [joinPathJS env.cacheDir ("MasterDarkFlat_" ++ kexpStr (kexpZ exp) ++ "s.xisf")])
    else
      match pickBest (lookupBin (groupByExp cats .masterDark) (kexpZ exp)) want env.matchCfg with
      | some b2 => (some ⟨b2.path, false, "MasterDark(exact)"⟩, [])
      | none =>
        if !(lookupBin (groupByExp cats .dark) (kexpZ exp)).isEmpty then
          (some ⟨joinPathJS env.cacheDir ("MasterDark_" ++ kexpStr (kexpZ exp) ++ "s.xisf"),
            false, "MasterDark(built)"⟩,
           [joinPathJS env.cacheDir ("MasterDark_" ++ kexpStr (kexpZ exp) ++ "s.xisf")])
        else
          if env.allowNearest then
            if (allMDOf cats env).isEmpty then (none, dBuildsOf cats env)
            else
              (some ⟨((nearestSorted exp cats env).headD ⟨"", 0⟩).path,
                true, "MasterDark(nearest+optimize)"⟩,
               dBuildsOf cats env)
          else (none, [])

/-! ## `integrateToMaster`: the ImageIntegration rejection setup

Only the settings relevant to the rejection-policy claims are modelled:
everything written between the `new ImageIntegration` and `executeGlobal()`
on lines 142–197.  An `Option` field with value `none` stands for an
ImageIntegration parameter the function never assigns (left at the
process default).  The enums are modelled as distinct constructors, which
matches a standard PixInsight 1.9.3 build where all the named enum values
exist and differ. -/

/-- Normalization modes used by the function. -/
inductive IINorm
  | noNorm
  | multiplicative
deriving DecidableEq, Repr

/-- Rejection algorithms the function can select. -/
inductive IIRejection
  | percentileClip
  | winsorizedSigmaClipping
  | linearFit
deriving DecidableEq, Repr

/-- Rejection-normalization modes used by the function. -/
inductive IIRejNorm
  | noRejNorm
  | equalizeFluxes
deriving DecidableEq, Repr

/-- The `rej` object handed down from `CFG.rejection`. -/
structure RejCfg where
  lowSigma : Option ℚ
  highSigma : Option ℚ
deriving DecidableEq, Repr

/-- The Python side always ships
`"rejection": {"lowSigma": 5.0, "highSigma": 5.0}` (built in `runSelected`,
read in the PJSR `run`). -/
def cfgRejection : RejCfg := ⟨some 5, some 5⟩

/-- The rejection-relevant ImageIntegration state at `executeGlobal()`. -/
structure IIState where
  normalization : IINorm
  rejection : IIRejection
  rejectionNormalization : IIRejNorm
  pcClipLow : Option ℚ
  pcClipHigh : Option ℚ
  sigmaLow : Option ℚ
  sigmaHigh : Option ℚ
  winsorizationCutoff : Option ℚ
  linearFitLow : Option ℚ
  linearFitHigh : Option ℚ
  clipLow : Option Bool
  clipHigh : Option Bool
  largeScaleClipHigh : Option Bool
deriving DecidableEq, Repr

/-- The settings `integrateToMaster` leaves on the ImageIntegration
instance for `n` input frames: `none` when the guard
`paths.length < 3` throws before any integration runs.  The final step is
the generic sigma override of lines 194–197, which fires whenever the
selected rejection is winsorized sigma clipping and `rej` carries numeric
sigmas. -/
def integrationSettings (n : ℕ) (forDark : Bool) (rej : RejCfg) : Option IIState :=
  if n < 3 then none
  else
    let base : IIState :=
      if forDark then
        { normalization := .noNorm, rejection := .winsorizedSigmaClipping,
          rejectionNormalization := .noRejNorm,
          pcClipLow := none, pcClipHigh := none, sigmaLow := none, sigmaHigh := none,
          winsorizationCutoff := none, linearFitLow := none, linearFitHigh := none,
          clipLow := none, clipHigh := none, largeScaleClipHigh := none }
      else if n < 6 then
        { normalization := .multiplicative, rejection := .percentileClip,
          rejectionNormalization := .equalizeFluxes,
          pcClipLow := some (1/5), pcClipHigh := some (1/10),
          sigmaLow := none, sigmaHigh := none, winsorizationCutoff := none,
          linearFitLow := none, linearFitHigh := none, clipLow := none, clipHigh := none,
          largeScaleClipHigh := some false }
      else if n ≤ 15 then
        { normalization := .multiplicative, rejection := .winsorizedSigmaClipping,
          rejectionNormalization := .equalizeFluxes,
          pcClipLow := none, pcClipHigh := none,
          sigmaLow := some 4, sigmaHigh := some 3, winsorizationCutoff := some 5,
          linearFitLow := none, linearFitHigh := none,
          clipLow := some true, clipHigh := some true, largeScaleClipHigh := some false }
      else
        { normalization := .multiplicative, rejection := .linearFit,
          rejectionNormalization := .equalizeFluxes,
          pcClipLow := none, pcClipHigh := none, sigmaLow := none, sigmaHigh := none,
          winsorizationCutoff := none, linearFitLow := some 5, linearFitHigh := some 4,
          clipLow := some true, clipHigh := some true, largeScaleClipHigh := some false }
    if base.rejection = .winsorizedSigmaClipping then
      some { base with
        sigmaLow := (match rej.lowSigma with | some v => some v | none => base.sigmaLow),
        sigmaHigh := (match rej.highSigma with | some v => some v | none => base.sigmaHigh) }
    else some base

/-! ## Directory listing filter (`MASTER_RE`, `_dir_image_files`) -/

/-- The body of `MASTER_RE = re.compile(r"^MasterFlat_.*\.xisf$",
re.IGNORECASE)` against an already-lowercased character list: the
`MasterFlat_` prefix, the `.xisf` suffix, and a newline-free middle
(`.` does not match a newline). -/
def masterReCore (l : List Char) : Bool :=
  "masterflat_".data.isPrefixOf l && ".xisf".data.isSuffixOf l
    && decide (16 ≤ l.length)
    && ((l.drop 11).take (l.length - 16)).all (fun c => !(c = '\n'))

/-- `MASTER_RE.match(fn)` as a boolean: anchored at the start; `$` also
matches just before one trailing newline. -/
def masterReMatch (fn : String) : Bool :=
  let l := (strLower fn).data
  masterReCore l ||
    (match l.getLast? with
     | some c => c = '\n' && masterReCore l.dropLast
     | none => false)

/-- One entry of `os.listdir` together with its `os.path.isfile` status. -/
structure DirEntryF where
  name : String
  isFile : Bool
deriving DecidableEq, Repr

/-- `FILE_EXTS = {".xisf",".fits",".fit"}`. -/
def FILE_EXTS : List String := [".xisf", ".fits", ".fit"]

/-- `_dir_image_files`: regular files with a supported extension whose name
does not match `MASTER_RE`, joined to the directory and sorted. -/
def dirImageFiles (listing : List DirEntryF) (dirPath : String) : List String :=
  sortedBy (fun a b => decide (a ≤ b))
    (listing.filterMap (fun e =>
      if e.isFile && FILE_EXTS.contains (strLower (pySplitextExt e.name))
          && !masterReMatch e.name
      then some (osJoin dirPath e.name) else none))

/-! ## Grouping in `scan_flats` and plan gathering -/

/-- One iteration of the bucketing loop of `scan_flats`: a file with a
known exposure goes to the bucket of its key, a null-exposure file is
excluded (counted as `missing_exp`). -/
def binStep (meta : String → Meta) (m : List (ℤ × List String)) (p : String) :
    List (ℤ × List String) :=
  match (meta p).exposure with
  | none => m
  | some e => addToBin m (pyKey3 e) p

/-- The `bins` dict of `scan_flats`: files with a known exposure bucketed
by the Python key `f"\x7bround(ex,3):.3f\x7d"` (modelled by `pyKey3`),
null-exposure files excluded. -/
def binsOf (files : List String) (meta : String → Meta) : List (ℤ × List String) :=
  files.foldl (binStep meta) []

/-- `bins_filtered`: buckets with fewer than 3 files dropped. -/
def binsFilteredOf (files : List String) (meta : String → Meta) : List (ℤ × List String) :=
  (binsOf files meta).filter (fun b => 3 ≤ b.2.length)

/-- The `wants[k]` profile: the advisory metadata of `plist[0]`, the first
file of the (unfiltered) bucket in the order the files were scanned. -/
def wantAt (files : List String) (meta : String → Meta) (k : ℤ) : Acq :=
  match lookupBin (binsOf files meta) k with
  | [] => Acq.nullAcq
  | p :: _ => (meta p).acq

/-- One exposure group of the plan (`{"exposure", "files", "want"}`). -/
structure Group where
  exposure : ℚ
  files : List String
  want : Acq
deriving DecidableEq, Repr

/-- The `groups` list `scan_flats` builds for one directory: surviving
buckets in ascending key order, exposure `float(k)`, want from `wants`. -/
def scanGroups (files : List String) (meta : String → Meta) : List Group :=
  (sortedBy (fun a b => decide (a.1 ≤ b.1)) (binsFilteredOf files meta)).map
    (fun p => ⟨(p.1 : ℚ) / 1000, p.2, wantAt files meta p.1⟩)

/-- The per-directory outcome of `scan_flats`: `none` when no bucket meets
the minimum-sample threshold (the directory is dropped from the plan). -/
def scanDir (files : List String) (meta : String → Meta) : Option (List Group) :=
  if (binsFilteredOf files meta).isEmpty then none else some (scanGroups files meta)

/-- The concatenation of the buckets' file lists. -/
def flattenBins (m : List (ℤ × List String)) : List String :=
  (m.map (fun p => p.2)).flatten

/-- One exposure-group node of the flats tree as the UI stores it:
its label `"<key>s  (<n> files)"` and its child file basenames. -/
structure UIGroupNode where
  label : String
  fileNames : List String
deriving DecidableEq, Repr

/-- A directory's groups as `_gather_selected_plan` rebuilds them for the
run and as the PJSR `run` then normalises them: the exposure is parsed back
from the label (`label.split("s",1)[0]`, skipping the node on a parse
failure), the file paths are rejoined with the directory, and `want` is
the empty object `\x7b\x7d` — whose four fields the PJSR defaults to
`null` on lines 338–341, i.e. the all-null profile. -/
def gatherGroups (dirPath : String) (nodes : List UIGroupNode) : List Group :=
  nodes.filterMap (fun nd =>
    match pyFloat? (String.mk (nd.label.data.takeWhile (fun c => !(c = 's')))) with
    | none => none
    | some e => some ⟨e, nd.fileNames.map (fun f => osJoin dirPath f), Acq.nullAcq⟩)

/-- Bucket-content invariant of the fold: every file stored under key `k`
has a known exposure whose Python key is `k`. -/
def BinsInv (meta : String → Meta) (m : List (ℤ × List String)) : Prop :=
  ∀ b ∈ m, ∀ q ∈ b.2, ∃ e, (meta q).exposure = some e ∧ pyKey3 e = b.1

/-! ## Concrete inputs for the witnesses and counterexamples -/

/-- Metadata map for the C6 witness: two files at 10 s, three at 20 s. -/
def c6meta : String → Meta := fun p =>
  if p = "a1" ∨ p = "a2" then ⟨some 10, none, none, none, none⟩
  else ⟨some 20, none, none, none, none⟩

/-- Metadata map for the C5 failing input: three 30 s flats whose first
(sorted) file carries binning "2", gain 100, offset 10, temperature −10. -/
def c5meta : String → Meta := fun p =>
  if p = "f1.fits" then ⟨some 30, some "2", some 100, some 10, some (-10)⟩
  else if p = "f2.fits" then ⟨some 30, some "2", some 100, some 10, some (-11)⟩
  else ⟨some 30, some "2", some 100, some 10, some (-12)⟩

/-- Catalog for the C2 witness: a MASTERDARKFLAT and a raw DARKFLAT stack
at the same 60 s exposure. -/
def c2cats : List CatEntry :=
  [⟨"mdf60", .masterDarkFlat, 60, none, none, none, none⟩,
   ⟨"df60a", .darkFlat, 60, none, none, none, none⟩,
   ⟨"df60b", .darkFlat, 60, none, none, none, none⟩,
   ⟨"df60c", .darkFlat, 60, none, none, none, none⟩]

/-- Environment used by the concrete selections: empty cache, nearest
fallback enabled, the program's fixed match policy. -/
def cDefaultEnv : PickEnv := ⟨"cache", true, fun _ => false, cfgMatch⟩

/-- Catalog for the C4 witness: MASTERDARK entries at 60 s and 300 s only. -/
def c4cats : List CatEntry :=
  [⟨"md60", .masterDark, 60, none, none, none, none⟩,
   ⟨"md300", .masterDark, 300, none, none, none, none⟩]

/-- The selection the C4 witness expects. -/
def c4sel : Selection := ⟨"md60", true, "MasterDark(nearest+optimize)"⟩

/-- Candidates for the C3 counterexample: two MASTERDARKFLAT entries at
10 s whose only scoring signal is temperature. -/
def c3cats : List CatEntry :=
  [⟨"p1", .masterDarkFlat, 10, none, none, none, some 50⟩,
   ⟨"p2", .masterDarkFlat, 10, none, none, none, some 20⟩]

/-- A match policy with a wide temperature window (`maxTempDeltaC = 100`):
the claim quantifies over every policy, and under this one both candidates
score below the loop's −1 sentinel. -/
def c3env : PickEnv := ⟨"cache", true, fun _ => false, ⟨false, false, true, 100⟩⟩

/-- The wanted profile of the C3 counterexample (temperature 0). -/
def c3want : Acq := ⟨none, none, none, some 0⟩

/-- Candidates for the C3 witness: under the fixed policy, the second
candidate matches the wanted binning and must win. -/
def c3wcats : List CatEntry :=
  [⟨"q1", .masterDarkFlat, 10, some "1", none, none, none⟩,
   ⟨"q2", .masterDarkFlat, 10, some "2", none, none, none⟩]

/-- The wanted profile of the C3 witness (binning "2"). -/
def c3wwant : Acq := ⟨some "2", none, none, none⟩

/-! ## Claim theorems -/

/-! ## Sorting, bucketing and best-candidate lemmas -/

theorem mem_insSorted (le : α → α → Bool) (x : α) (l : List α) (z : α) :
    z ∈ insSorted le x l ↔ z = x ∨ z ∈ l := by
  induction l with
  | nil => simp [insSorted]
  | cons y ys ih =>
    by_cases h : le y x = true
    · simp only [insSorted, if_pos h, List.mem_cons, ih]
      tauto
    · simp only [insSorted, if_neg h, List.mem_cons]

theorem mem_sortedBy (le : α → α → Bool) (l : List α) (z : α) :
    z ∈ sortedBy le l ↔ z ∈ l := by
  induction l with
  | nil => simp [sortedBy]
  | cons x xs ih => simp [sortedBy, mem_insSorted, ih]

theorem sortedBy_ne_nil (le : α → α → Bool) (l : List α) (h : l ≠ []) :
    sortedBy le l ≠ [] := by
  cases l with
  | nil => exact absurd rfl h
  | cons x xs =>
    simp only [sortedBy]
    cases hs : sortedBy le xs with
    | nil => simp [insSorted]
    | cons y ys =>
      by_cases hle : le y x = true <;> simp [insSorted, hle]

/-- The head of a sort by a measure-compatible comparator minimises that
measure.  (Used for the nearest-exposure sort of tier 5, whose JS
comparator `|a.exposure-exp| - |b.exposure-exp|` orders by that measure.) -/
theorem head_sortedOn_min (f : α → ℚ) (le : α → α → Bool)
    (hc : ∀ a b, le a b = true ↔ f a ≤ f b) (l : List α) (b : α) (rest : List α)
    (hsort : sortedBy le l = b :: rest) :
    ∀ x ∈ l, f b ≤ f x := by
  induction l generalizing b rest with
  | nil => simp [sortedBy] at hsort
  | cons a as ih =>
    simp only [sortedBy] at hsort
    cases hs : sortedBy le as with
    | nil =>
      rw [hs] at hsort
      simp only [insSorted, List.cons.injEq] at hsort
      intro x hx
      rcases List.mem_cons.mp hx with h | h
      · exact le_of_eq (congrArg f (hsort.1 ▸ h.symm))
      · have hmem : x ∈ sortedBy le as := (mem_sortedBy le as x).mpr h
        rw [hs] at hmem
        exact absurd hmem (List.not_mem_nil x)
    | cons y ys =>
      rw [hs] at hsort
      simp only [insSorted] at hsort
      by_cases hya : f y ≤ f a
      · rw [if_pos ((hc y a).mpr hya)] at hsort
        have hb : b = y := (List.cons.injEq .. ▸ hsort).1.symm
        subst hb
        intro x hx
        rcases List.mem_cons.mp hx with h | h
        · exact h ▸ hya
        · exact ih b ys hs x h
      · rw [if_neg (fun hcc => hya ((hc y a).mp hcc))] at hsort
        have hb : b = a := (List.cons.injEq .. ▸ hsort).1.symm
        subst hb
        intro x hx
        rcases List.mem_cons.mp hx with h | h
        · exact le_of_eq (congrArg f h.symm)
        · exact le_trans (le_of_lt (lt_of_not_le hya)) (ih y ys hs x h)

theorem lookupBin_nil (k : ℤ) : lookupBin ([] : List (ℤ × List α)) k = [] := rfl

theorem lookupBin_cons (k0 : ℤ) (xs : List α) (rest : List (ℤ × List α)) (k2 : ℤ) :
    lookupBin ((k0, xs) :: rest) k2 = if k0 = k2 then xs else lookupBin rest k2 := by
  by_cases h : k0 = k2 <;> simp [lookupBin, List.find?, h]

theorem lookupBin_addToBin (m : List (ℤ × List α)) (k k2 : ℤ) (x : α) :
    lookupBin (addToBin m k x) k2 =
      if k = k2 then lookupBin m k2 ++ [x] else lookupBin m k2 := by
  induction m with
  | nil =>
    by_cases h : k = k2 <;> simp [addToBin, lookupBin_cons, lookupBin_nil, h]
  | cons p rest ih =>
    obtain ⟨k0, xs⟩ := p
    by_cases h0 : k0 = k
    · subst h0
      by_cases h2 : k0 = k2
      · subst h2
        simp [addToBin, lookupBin_cons]
      · simp [addToBin, lookupBin_cons, h2]
    · simp only [addToBin, if_neg h0]
      by_cases h2 : k0 = k2
      · subst h2
        have hne : ¬k = k0 := fun hh => h0 hh.symm
        simp [lookupBin_cons, hne]
      · simp only [lookupBin_cons, if_neg h2]
        exact ih

theorem lookupBin_groupByExp (cats : List CatEntry) (t : DarkType) (k : ℤ) :
    lookupBin (groupByExp cats t) k = entriesAt cats t k := by
  suffices h : ∀ m : List (ℤ × List CatEntry),
      lookupBin (cats.foldl
        (fun m c => if c.type = t then addToBin m (kexpZ c.exposure) c else m) m) k
        = lookupBin m k ++ entriesAt cats t k by
    have := h []
    simpa [groupByExp, lookupBin, List.find?, entriesAt] using this
  induction cats with
  | nil => intro m; simp [entriesAt]
  | cons c cs ih =>
    intro m
    simp only [List.foldl_cons, entriesAt, List.filter_cons]
    by_cases ht : c.type = t
    · rw [if_pos ht]
      by_cases hk : kexpZ c.exposure = k
      · have : (decide (c.type = t) && decide (kexpZ c.exposure = k)) = true := by
          simp [ht, hk]
        rw [this, ih, lookupBin_addToBin, if_pos hk]
        simp [entriesAt, List.append_assoc]
      · have : (decide (c.type = t) && decide (kexpZ c.exposure = k)) = false := by
          simp [hk]
        rw [this, ih, lookupBin_addToBin, if_neg hk]
        simp [entriesAt]
    · rw [if_neg ht]
      have : (decide (c.type = t) && decide (kexpZ c.exposure = k)) = false := by
        simp [ht]
      rw [this, ih]
      simp [entriesAt]

theorem bestLoop_mem (want : Acq) (m : MatchCfg) (best : CatEntry) (bestS : ℚ)
    (l : List CatEntry) : bestLoop want m best bestS l ∈ best :: l := by
  induction l generalizing best bestS with
  | nil => simp [bestLoop]
  | cons c rest ih =>
    simp only [bestLoop]
    by_cases h : bestS < metaScore c.acqOf want m
    · rw [if_pos h]
      exact List.mem_cons.mpr (Or.inr (ih c (metaScore c.acqOf want m)))
    · rw [if_neg h]
      rcases List.mem_cons.mp (ih best bestS) with h2 | h2
      · exact List.mem_cons.mpr (Or.inl h2)
      · exact List.mem_cons.mpr (Or.inr (List.mem_cons.mpr (Or.inr h2)))

theorem bestLoop_eq_firstMaxBy (want : Acq) (m : MatchCfg) (b : CatEntry)
    (l : List CatEntry) :
    bestLoop want m b (metaScore b.acqOf want m) l
      = firstMaxBy (fun c => metaScore c.acqOf want m) b l := by
  induction l generalizing b with
  | nil => rfl
  | cons c rest ih =>
    simp only [bestLoop, firstMaxBy]
    by_cases h : metaScore b.acqOf want m < metaScore c.acqOf want m
    · rw [if_pos h, if_pos h, ih]
    · rw [if_neg h, if_neg h, ih]

theorem le_firstMaxBy (f : α → ℚ) (b : α) (l : List α) :
    ∀ x ∈ b :: l, f x ≤ f (firstMaxBy f b l) := by
  induction l generalizing b with
  | nil => simp [firstMaxBy]
  | cons c rest ih =>
    intro x hx
    simp only [firstMaxBy]
    by_cases h : f b < f c
    · rw [if_pos h]
      rcases List.mem_cons.mp hx with h2 | h2
      · exact le_trans (le_of_lt (h2 ▸ h)) (ih c c (List.mem_cons_self c rest))
      · rcases List.mem_cons.mp h2 with h3 | h3
        · exact ih c x (h3 ▸ List.mem_cons_self c rest)
        · exact ih c x (List.mem_cons.mpr (Or.inr h3))
    · rw [if_neg h]
      rcases List.mem_cons.mp hx with h2 | h2
      · exact ih b x (h2 ▸ List.mem_cons_self b rest)
      · rcases List.mem_cons.mp h2 with h3 | h3
        · exact le_trans (le_of_not_lt (h3 ▸ h)) (ih b b (List.mem_cons_self b rest))
        · exact ih b x (List.mem_cons.mpr (Or.inr h3))

theorem firstMaxBy_split (f : α → ℚ) (b : α) (l : List α) :
    ∃ l1 l2, b :: l = l1 ++ firstMaxBy f b l :: l2
      ∧ ∀ x ∈ l1, f x < f (firstMaxBy f b l) := by
  induction l generalizing b with
  | nil => exact ⟨[], [], by simp [firstMaxBy], by simp⟩
  | cons c rest ih =>
    simp only [firstMaxBy]
    by_cases h : f b < f c
    · rw [if_pos h]
      obtain ⟨l1, l2, heq, hlt⟩ := ih c
      refine ⟨b :: l1, l2, by rw [List.cons_append, ← heq], ?_⟩
      intro x hx
      rcases List.mem_cons.mp hx with h2 | h2
      · exact h2 ▸ lt_of_lt_of_le h (le_firstMaxBy f c rest c (List.mem_cons_self c rest))
      · exact hlt x h2
    · rw [if_neg h]
      obtain ⟨l1, l2, heq, hlt⟩ := ih b
      cases l1 with
      | nil =>
        simp only [List.nil_append] at heq
        injection heq with hb ht2
        refine ⟨[], c :: rest, ?_, by simp⟩
        simp [← hb]
      | cons y t =>
        rw [List.cons_append] at heq
        injection heq with hy ht
        refine ⟨b :: c :: t, l2, ?_, ?_⟩
        · simp only [List.cons_append]
          exact congrArg (fun r => b :: c :: r) ht
        · intro x hx
          have hbR : f b < f (firstMaxBy f b rest) := by
            have hyy := hlt y (List.mem_cons_self y t)
            rwa [← hy] at hyy
          rcases List.mem_cons.mp hx with h2 | h2
          · exact h2 ▸ hbR
          · rcases List.mem_cons.mp h2 with h3 | h3
            · subst h3
              exact lt_of_le_of_lt (le_of_not_lt h) hbR
            · exact hlt x (List.mem_cons.mpr (Or.inr h3))

/-! ## Structural lemmas about the bucketing fold (towards grouping
idempotence) -/

theorem map_fst_addToBin (m : List (ℤ × List α)) (k : ℤ) (x : α) :
    (addToBin m k x).map Prod.fst =
      if k ∈ m.map Prod.fst then m.map Prod.fst else m.map Prod.fst ++ [k] := by
  induction m with
  | nil => simp [addToBin]
  | cons p rest ih =>
    obtain ⟨k0, xs⟩ := p
    by_cases h : k0 = k
    · subst h
      simp [addToBin]
    · have hne : ¬k = k0 := fun hh => h hh.symm
      simp only [addToBin, if_neg h, List.map_cons, ih, List.mem_cons]
      by_cases hk : k ∈ rest.map Prod.fst
      · rw [if_pos hk, if_pos (Or.inr hk)]
      · rw [if_neg hk, if_neg (by tauto)]
        simp

theorem nodup_map_fst_addToBin (m : List (ℤ × List α)) (k : ℤ) (x : α)
    (h : (m.map Prod.fst).Nodup) : ((addToBin m k x).map Prod.fst).Nodup := by
  rw [map_fst_addToBin]
  by_cases hk : k ∈ m.map Prod.fst
  · rwa [if_pos hk]
  · rw [if_neg hk]
    exact List.Nodup.append h (List.nodup_singleton k)
      (by simpa [List.disjoint_singleton] using hk)

theorem addToBin_of_notMem (m : List (ℤ × List α)) (k : ℤ) (x : α)
    (h : k ∉ m.map Prod.fst) : addToBin m k x = m ++ [(k, [x])] := by
  induction m with
  | nil => rfl
  | cons p rest ih =>
    obtain ⟨k0, xs⟩ := p
    simp only [List.map_cons, List.mem_cons] at h
    push_neg at h
    have hk0 : ¬k0 = k := fun hh => h.1 hh.symm
    simp only [addToBin, if_neg hk0, List.cons_append]
    exact congrArg (fun t => (k0, xs) :: t) (ih h.2)

theorem addToBin_append_last (acc : List (ℤ × List α)) (k : ℤ) (qs : List α) (x : α)
    (h : k ∉ acc.map Prod.fst) :
    addToBin (acc ++ [(k, qs)]) k x = acc ++ [(k, qs ++ [x])] := by
  induction acc with
  | nil => simp [addToBin]
  | cons p rest ih =>
    obtain ⟨k0, xs⟩ := p
    simp only [List.map_cons, List.mem_cons] at h
    push_neg at h
    have hk0 : ¬k0 = k := fun hh => h.1 hh.symm
    simp only [List.cons_append, addToBin, if_neg hk0]
    exact congrArg (fun t => (k0, xs) :: t) (ih h.2)

theorem binsInv_addToBin (meta : String → Meta) (m : List (ℤ × List String))
    (k : ℤ) (x : String) (hm : BinsInv meta m)
    (hx : ∃ e, (meta x).exposure = some e ∧ pyKey3 e = k) :
    BinsInv meta (addToBin m k x) := by
  induction m with
  | nil =>
    intro b hb q hq
    simp only [addToBin, List.mem_singleton] at hb
    subst hb
    simp only [List.mem_singleton] at hq
    exact hq ▸ hx
  | cons p rest ih =>
    obtain ⟨k0, xs⟩ := p
    by_cases h : k0 = k
    · intro b hb q hq
      simp only [addToBin, if_pos h, List.mem_cons] at hb
      rcases hb with hb | hb
      · subst hb
        rcases List.mem_append.mp hq with hq2 | hq2
        · exact hm (k0, xs) (List.mem_cons_self _ _) q hq2
        · simp only [List.mem_singleton] at hq2
          subst hq2
          obtain ⟨e, he, hke⟩ := hx
          exact ⟨e, he, h ▸ hke⟩
      · exact hm b (List.mem_cons.mpr (Or.inr hb)) q hq
    · intro b hb q hq
      simp only [addToBin, if_neg h, List.mem_cons] at hb
      rcases hb with hb | hb
      · exact hm b (by rw [hb]; exact List.mem_cons_self _ _) q hq
      · exact ih (fun b2 hb2 q2 hq2 => hm b2 (List.mem_cons.mpr (Or.inr hb2)) q2 hq2)
          b hb q hq

theorem bucket_ne_nil_addToBin (m : List (ℤ × List α)) (k : ℤ) (x : α)
    (hm : ∀ b ∈ m, b.2 ≠ []) : ∀ b ∈ addToBin m k x, b.2 ≠ [] := by
  induction m with
  | nil =>
    intro b hb
    simp only [addToBin, List.mem_singleton] at hb
    subst hb
    simp
  | cons p rest ih =>
    obtain ⟨k0, xs⟩ := p
    by_cases h : k0 = k
    · intro b hb
      simp only [addToBin, if_pos h, List.mem_cons] at hb
      rcases hb with hb | hb
      · subst hb
        simp
      · exact hm b (List.mem_cons.mpr (Or.inr hb))
    · intro b hb
      simp only [addToBin, if_neg h, List.mem_cons] at hb
      rcases hb with hb | hb
      · rw [hb]
        exact hm (k0, xs) (List.mem_cons_self _ _)
      · exact ih (fun b2 hb2 => hm b2 (List.mem_cons.mpr (Or.inr hb2))) b hb

theorem nodup_map_fst_binsOf (files : List String) (meta : String → Meta) :
    ((binsOf files meta).map Prod.fst).Nodup := by
  suffices h : ∀ m : List (ℤ × List String), (m.map Prod.fst).Nodup →
      ((files.foldl (binStep meta) m).map Prod.fst).Nodup from h [] (by simp)
  induction files with
  | nil => intro m hm; exact hm
  | cons p ps ih =>
    intro m hm
    simp only [List.foldl_cons]
    cases he : (meta p).exposure with
    | none =>
      rw [show binStep meta m p = m from by simp [binStep, he]]
      exact ih m hm
    | some e =>
      rw [show binStep meta m p = addToBin m (pyKey3 e) p from by simp [binStep, he]]
      exact ih _ (nodup_map_fst_addToBin m (pyKey3 e) p hm)

theorem binsInv_binsOf (files : List String) (meta : String → Meta) :
    BinsInv meta (binsOf files meta) := by
  suffices h : ∀ m : List (ℤ × List String), BinsInv meta m →
      BinsInv meta (files.foldl (binStep meta) m) from h [] (by intro b hb; simp at hb)
  induction files with
  | nil => intro m hm; exact hm
  | cons p ps ih =>
    intro m hm
    simp only [List.foldl_cons]
    cases he : (meta p).exposure with
    | none =>
      rw [show binStep meta m p = m from by simp [binStep, he]]
      exact ih m hm
    | some e =>
      rw [show binStep meta m p = addToBin m (pyKey3 e) p from by simp [binStep, he]]
      exact ih _ (binsInv_addToBin meta m (pyKey3 e) p hm ⟨e, he, rfl⟩)

theorem bucket_ne_nil_binsOf (files : List String) (meta : String → Meta) :
    ∀ b ∈ binsOf files meta, b.2 ≠ [] := by
  suffices h : ∀ m : List (ℤ × List String), (∀ b ∈ m, b.2 ≠ []) →
      ∀ b ∈ files.foldl (binStep meta) m, b.2 ≠ [] from h [] (by intro b hb; simp at hb)
  induction files with
  | nil => intro m hm; exact hm
  | cons p ps ih =>
    intro m hm
    simp only [List.foldl_cons]
    cases he : (meta p).exposure with
    | none =>
      rw [show binStep meta m p = m from by simp [binStep, he]]
      exact ih m hm
    | some e =>
      rw [show binStep meta m p = addToBin m (pyKey3 e) p from by simp [binStep, he]]
      exact ih _ (bucket_ne_nil_addToBin m (pyKey3 e) p hm)

theorem foldl_binStep_same_key (meta : String → Meta) (k : ℤ) (ps : List String)
    (hps : ∀ q ∈ ps, ∃ e, (meta q).exposure = some e ∧ pyKey3 e = k) :
    ∀ acc qs, k ∉ acc.map Prod.fst →
      ps.foldl (binStep meta) (acc ++ [(k, qs)]) = acc ++ [(k, qs ++ ps)] := by
  induction ps with
  | nil => intro acc qs _; simp
  | cons p ps2 ih =>
    intro acc qs hk
    obtain ⟨e, he, hke⟩ := hps p (List.mem_cons_self p ps2)
    simp only [List.foldl_cons, binStep, he, hke, addToBin_append_last acc k qs p hk]
    rw [ih (fun q hq => hps q (List.mem_cons.mpr (Or.inr hq))) acc (qs ++ [p]) hk]
    simp

theorem foldl_binStep_bucket (meta : String → Meta) (k : ℤ) (ps : List String)
    (hne : ps ≠ [])
    (hps : ∀ q ∈ ps, ∃ e, (meta q).exposure = some e ∧ pyKey3 e = k)
    (acc : List (ℤ × List String)) (hk : k ∉ acc.map Prod.fst) :
    ps.foldl (binStep meta) acc = acc ++ [(k, ps)] := by
  cases ps with
  | nil => exact absurd rfl hne
  | cons p ps2 =>
    obtain ⟨e, he, hke⟩ := hps p (List.mem_cons_self p ps2)
    simp only [List.foldl_cons, binStep, he, hke, addToBin_of_notMem acc k p hk]
    rw [foldl_binStep_same_key meta k ps2
      (fun q hq => hps q (List.mem_cons.mpr (Or.inr hq))) acc [p] hk]
    simp

theorem foldl_binStep_rebuild (meta : String → Meta) (bins : List (ℤ × List String)) :
    ∀ acc, (((acc ++ bins).map Prod.fst).Nodup) →
      (∀ b ∈ bins, b.2 ≠ []) → BinsInv meta bins →
      (flattenBins bins).foldl (binStep meta) acc = acc ++ bins := by
  induction bins with
  | nil => intro acc _ _ _; simp [flattenBins]
  | cons b bins2 ih =>
    intro acc hnd hne hinv
    obtain ⟨k, ps⟩ := b
    have hflat : flattenBins ((k, ps) :: bins2) = ps ++ flattenBins bins2 := by
      simp [flattenBins]
    rw [hflat, List.foldl_append]
    have hk : k ∉ acc.map Prod.fst := by
      simp only [List.map_append, List.map_cons] at hnd
      have hd := (List.nodup_append.mp hnd).2.2
      intro hmem
      exact hd hmem (List.mem_cons_self _ _)
    rw [foldl_binStep_bucket meta k ps
      (hne (k, ps) (List.mem_cons_self _ _))
      (fun q hq => hinv (k, ps) (List.mem_cons_self _ _) q hq) acc hk]
    have heq : (acc ++ [(k, ps)]) ++ bins2 = acc ++ ((k, ps) :: bins2) := by simp
    rw [ih (acc ++ [(k, ps)]) (by rw [heq]; exact hnd)
      (fun b2 hb2 => hne b2 (List.mem_cons.mpr (Or.inr hb2)))
      (fun b2 hb2 q hq => hinv b2 (List.mem_cons.mpr (Or.inr hb2)) q hq)]
    exact heq

theorem binsOf_flatten_filtered (files : List String) (meta : String → Meta) :
    binsOf (flattenBins (binsFilteredOf files meta)) meta = binsFilteredOf files meta := by
  have hsub : (binsFilteredOf files meta).Sublist (binsOf files meta) :=
    List.filter_sublist _
  have hnd : (((([] : List (ℤ × List String)) ++ binsFilteredOf files meta).map
      Prod.fst).Nodup) := by
    simp only [List.nil_append]
    exact (nodup_map_fst_binsOf files meta).sublist (hsub.map Prod.fst)
  have hne : ∀ b ∈ binsFilteredOf files meta, b.2 ≠ [] := fun b hb =>
    bucket_ne_nil_binsOf files meta b (hsub.mem hb)
  have hinv : BinsInv meta (binsFilteredOf files meta) := fun b hb q hq =>
    binsInv_binsOf files meta b (hsub.mem hb) q hq
  have := foldl_binStep_rebuild meta (binsFilteredOf files meta) [] hnd hne hinv
  simpa [binsOf] using this

section ClaimTheorems

attribute [local semireducible] Rat.mul Rat.inv Rat.add Rat.sub

/-- C9: grouping — bucketing by the exposure rounded to 3 decimals
(fixed-width key), excluding null-exposure files and dropping buckets with
fewer than 3 files — is idempotent: regrouping the concatenation of the
surviving groups' file lists with the same metadata yields exactly the
same groups with the same membership. -/
theorem c9_grouping_idempotent (files : List String) (meta : String → Meta) :
    binsFilteredOf (flattenBins (binsFilteredOf files meta)) meta
      = binsFilteredOf files meta := by
  have h := binsOf_flatten_filtered files meta
  unfold binsFilteredOf
  unfold binsFilteredOf at h
  rw [h]
  exact List.filter_eq_self.mpr (fun b hb => (List.mem_filter.mp hb).2)

/-- C6: every exposure group that survives `scan_flats` has at least 3
files, and a directory all of whose buckets are below the threshold is
dropped entirely (no plan entry). -/
theorem c6_min_samples (files : List String) (meta : String → Meta) :
    (∀ gs, scanDir files meta = some gs → ∀ g ∈ gs, 3 ≤ g.files.length)
    ∧ ((∀ b ∈ binsOf files meta, b.2.length < 3) → scanDir files meta = none) := by
  constructor
  · intro gs hgs g hg
    have hgs2 : gs = scanGroups files meta := by
      unfold scanDir at hgs
      by_cases hemp : (binsFilteredOf files meta).isEmpty
      · rw [if_pos hemp] at hgs
        exact absurd hgs (by simp)
      · rw [if_neg hemp] at hgs
        exact (Option.some.inj hgs).symm
    subst hgs2
    obtain ⟨p, hp, hgp⟩ := List.mem_map.mp hg
    have hpmem : p ∈ binsFilteredOf files meta :=
      (mem_sortedBy (fun a b => decide (a.1 ≤ b.1)) (binsFilteredOf files meta) p).mp hp
    have hpred := List.of_mem_filter hpmem
    rw [← hgp]
    simpa using hpred
  · intro hall
    unfold scanDir
    rw [if_pos ?hemp]
    case hemp =>
      have : binsFilteredOf files meta = [] := by
        refine List.filter_eq_nil_iff.mpr (fun b hb => ?_)
        simpa using Nat.not_le.mpr (hall b hb)
      simp [this]

/-- C6 witness: with two files at 10 s and three at 20 s the 2-file bucket
is dropped and the 3-file bucket is kept; with only the two 10 s files the
directory is dropped. -/
theorem c6_min_samples_witness :
    scanDir ["a1", "a2", "b1", "b2", "b3"] c6meta
        = some [⟨20, ["b1", "b2", "b3"], Acq.nullAcq⟩]
    ∧ (∀ g ∈ [(⟨20, ["b1", "b2", "b3"], Acq.nullAcq⟩ : Group)], 3 ≤ g.files.length)
    ∧ scanDir ["a1", "a2"] c6meta = none := by
  refine ⟨by decide, ?_, ?_⟩
  · exact (c6_min_samples ["a1", "a2", "b1", "b2", "b3"] c6meta).1 _ (by decide)
  · exact (c6_min_samples ["a1", "a2"] c6meta).2 (by decide)

/-- C1 (code bug): for flat integration (`forDark = false`) the claimed
table holds at `n = 5` (percentile-clip 0.20/0.10) and `n = 16`
(linear-fit 5.0/4.0, both tails), with multiplicative normalization and
flux-equalizing rejection normalization; but in the winsorized band
(`n = 10`) the generic override of lines 194–197 replaces the just-set
WBPP sigmas 4.0/3.0 by the run's fixed `CFG.rejection` values 5.0/5.0, so
the configuration actually in effect contradicts the claim. -/
theorem c1_rejection_policy :
    integrationSettings 5 false cfgRejection = some
      { normalization := .multiplicative, rejection := .percentileClip,
        rejectionNormalization := .equalizeFluxes,
        pcClipLow := some (1/5), pcClipHigh := some (1/10),
        sigmaLow := none, sigmaHigh := none, winsorizationCutoff := none,
        linearFitLow := none, linearFitHigh := none, clipLow := none, clipHigh := none,
        largeScaleClipHigh := some false }
    ∧ integrationSettings 10 false cfgRejection = some
      { normalization := .multiplicative, rejection := .winsorizedSigmaClipping,
        rejectionNormalization := .equalizeFluxes,
        pcClipLow := none, pcClipHigh := none,
        sigmaLow := some 5, sigmaHigh := some 5, winsorizationCutoff := some 5,
        linearFitLow := none, linearFitHigh := none,
        clipLow := some true, clipHigh := some true, largeScaleClipHigh := some false }
    ∧ (integrationSettings 10 false cfgRejection).map (fun s => s.sigmaLow)
        ≠ some (some 4)
    ∧ integrationSettings 16 false cfgRejection = some
      { normalization := .multiplicative, rejection := .linearFit,
        rejectionNormalization := .equalizeFluxes,
        pcClipLow := none, pcClipHigh := none, sigmaLow := none, sigmaHigh := none,
        winsorizationCutoff := none, linearFitLow := some 5, linearFitHigh := some 4,
        clipLow := some true, clipHigh := some true, largeScaleClipHigh := some false }
    ∧ integrationSettings 2 false cfgRejection = none := by
  exact ⟨by decide, by decide, by decide, by decide, by decide⟩

/-- C5 (code bug): `scan_flats` does derive the want profile from the
first sorted file of the bucket, but `_gather_selected_plan` — the only
producer of the plan that reaches the dark-matching step — rebuilds each
group with an empty want, which the PJSR normalises to the all-null
profile; the profile that reaches dark matching is therefore not the first
file's metadata. -/
theorem c5_want_discarded :
    scanGroups ["f1.fits", "f2.fits", "f3.fits"] c5meta
        = [⟨30, ["f1.fits", "f2.fits", "f3.fits"],
            ⟨some "2", some 100, some 10, some (-10)⟩⟩]
    ∧ wantAt ["f1.fits", "f2.fits", "f3.fits"] c5meta 30000
        = ⟨some "2", some 100, some 10, some (-10)⟩
    ∧ gatherGroups "d" [⟨"30.000s  (3 files)", ["f1.fits", "f2.fits", "f3.fits"]⟩]
        = [⟨30, ["d/f1.fits", "d/f2.fits", "d/f3.fits"], Acq.nullAcq⟩]
    ∧ Acq.nullAcq ≠ (⟨some "2", some 100, some 10, some (-10)⟩ : Acq) := by
  exact ⟨by decide, by decide, by decide, by decide⟩

/-- C10 counterexample: `MasterFlat_2020.fits` matches the claimed
case-insensitive `MasterFlat_*` pattern and has a supported extension, yet
it appears in the candidate list, because `MASTER_RE` requires the name to
end in `.xisf`. -/
theorem c10_counterexample :
    dirImageFiles [⟨"MasterFlat_2020.fits", true⟩] "d" = ["d/MasterFlat_2020.fits"]
    ∧ FILE_EXTS.contains (strLower (pySplitextExt "MasterFlat_2020.fits")) = true
    ∧ strStartsWith (strLower "MasterFlat_2020.fits") "masterflat_" = true
    ∧ masterReMatch "MasterFlat_2020.fits" = false := by
  exact ⟨by decide, by decide, by decide, by decide⟩

theorem osJoin_name_inj (d n1 n2 : String) (h : osJoin d n1 = osJoin d n2) : n1 = n2 := by
  unfold osJoin at h
  split at h
  · exact h
  · split at h
    · have h2 := congrArg String.data h
      simp only [String.data_append] at h2
      exact String.ext (List.append_cancel_left h2)
    · have h2 := congrArg String.data h
      simp only [String.data_append, List.append_assoc] at h2
      exact String.ext (List.append_cancel_left (List.append_cancel_left h2))

/-- C10 amended: the exclusion pattern is case-insensitive
`MasterFlat_*.xisf`; every candidate comes from a regular-file entry with
a supported extension that does not match it, any such entry is included,
and an entry matching the pattern is never included at its joined path. -/
theorem c10_excluded_masters (listing : List DirEntryF) (dirPath : String) :
    (∀ p ∈ dirImageFiles listing dirPath, ∃ e ∈ listing,
        p = osJoin dirPath e.name ∧ e.isFile = true
        ∧ FILE_EXTS.contains (strLower (pySplitextExt e.name)) = true
        ∧ masterReMatch e.name = false)
    ∧ (∀ e ∈ listing, e.isFile = true →
        FILE_EXTS.contains (strLower (pySplitextExt e.name)) = true →
        masterReMatch e.name = false →
        osJoin dirPath e.name ∈ dirImageFiles listing dirPath)
    ∧ (∀ e ∈ listing, masterReMatch e.name = true →
        osJoin dirPath e.name ∉ dirImageFiles listing dirPath) := by
  have hmem : ∀ p, p ∈ dirImageFiles listing dirPath ↔
      ∃ e ∈ listing,
        (e.isFile && FILE_EXTS.contains (strLower (pySplitextExt e.name))
          && !masterReMatch e.name) = true
        ∧ osJoin dirPath e.name = p := by
    intro p
    unfold dirImageFiles
    rw [mem_sortedBy]
    constructor
    · intro hp
      obtain ⟨e, he, hfe⟩ := List.mem_filterMap.mp hp
      by_cases hc : (e.isFile && FILE_EXTS.contains (strLower (pySplitextExt e.name))
          && !masterReMatch e.name) = true
      · rw [if_pos hc] at hfe
        exact ⟨e, he, hc, Option.some.inj hfe⟩
      · rw [if_neg hc] at hfe
        exact absurd hfe (by simp)
    · rintro ⟨e, he, hc, hp⟩
      exact List.mem_filterMap.mpr ⟨e, he, by rw [if_pos hc, hp]⟩
  refine ⟨?_, ?_, ?_⟩
  · intro p hp
    obtain ⟨e, he, hc, hpj⟩ := (hmem p).mp hp
    simp only [Bool.and_eq_true, Bool.not_eq_true'] at hc
    exact ⟨e, he, hpj.symm, hc.1.1, hc.1.2, hc.2⟩
  · intro e he h1 h2 h3
    exact (hmem (osJoin dirPath e.name)).mpr
      ⟨e, he, by rw [h1, h2, h3]; rfl, rfl⟩
  · intro e he hmre hp
    obtain ⟨e2, _, hc, hpj⟩ := (hmem (osJoin dirPath e.name)).mp hp
    simp only [Bool.and_eq_true, Bool.not_eq_true'] at hc
    have hnames : e2.name = e.name := osJoin_name_inj dirPath e2.name e.name hpj
    rw [hnames] at hc
    rw [hmre] at hc
    exact Bool.true_eq_false.mp hc.2

/-- C10 witness: in a listing with a `MasterFlat_a.xisf` master and an
ordinary `flat_30s.fits`, the master is excluded and the flat is kept. -/
theorem c10_excluded_masters_witness :
    osJoin "d" "MasterFlat_a.xisf" ∉ dirImageFiles
        [⟨"MasterFlat_a.xisf", true⟩, ⟨"flat_30s.fits", true⟩] "d"
    ∧ osJoin "d" "flat_30s.fits" ∈ dirImageFiles
        [⟨"MasterFlat_a.xisf", true⟩, ⟨"flat_30s.fits", true⟩] "d" := by
  constructor
  · exact (c10_excluded_masters
      [⟨"MasterFlat_a.xisf", true⟩, ⟨"flat_30s.fits", true⟩] "d").2.2
      ⟨"MasterFlat_a.xisf", true⟩ (by decide) (by decide)
  · exact (c10_excluded_masters
      [⟨"MasterFlat_a.xisf", true⟩, ⟨"flat_30s.fits", true⟩] "d").2.1
      ⟨"flat_30s.fits", true⟩ (by decide) (by decide) (by decide) (by decide)

/-- C8: metadata extraction is total — in the model every fallible step is
an explicit `none` — and degrades as claimed: a failed header read or
parse yields the record with the exposure inferred from the filename (or
null) and all other fields null, an unrecognised extension likewise, and a
non-numeric header value silently yields null for its field (shown for
gain, and for the exposure falling back to name inference). -/
theorem c8_read_meta_degrades :
    (∀ path d, strLower (pathlibSuffix path) = ".fits" ∨ strLower (pathlibSuffix path) = ".fit" →
        d.fitsHeader = none → readMeta path d = fallbackMeta path)
    ∧ (∀ path d, strLower (pathlibSuffix path) = ".xisf" →
        d.xisfFields = none → readMeta path d = fallbackMeta path)
    ∧ (∀ path d,
        ¬(strLower (pathlibSuffix path) = ".fits" ∨ strLower (pathlibSuffix path) = ".fit") →
        ¬(strLower (pathlibSuffix path) = ".xisf") →
        readMeta path d = fallbackMeta path)
    ∧ (∀ path, fallbackMeta path = ⟨inferExposureFromName path, none, none, none, none⟩)
    ∧ (∀ h path s, hdrGet h keysGain = some (.str s) → pyFloat? (stripQuotes s) = none →
        (fitsMeta (some h) path).gain = none)
    ∧ (∀ h path, coerceFloat (hdrGet h keysExptime) = none →
        (fitsMeta (some h) path).exposure = inferExposureFromName path) := by
  refine ⟨?_, ?_, ?_, fun path => rfl, ?_, ?_⟩
  · intro path d hext hf
    unfold readMeta
    rw [if_pos hext, hf]
    rfl
  · intro path d hext hx
    unfold readMeta
    rw [hext]
    rw [if_neg (by decide), if_pos rfl, hx]
    rfl
  · intro path d hext1 hext2
    unfold readMeta
    rw [if_neg hext1, if_neg hext2]
  · intro h path s hg hpf
    simp only [fitsMeta, hg]
    simpa [coerceFloat] using hpf
  · intro h path hco
    simp only [fitsMeta, hco]

/-- C8 witness: a `.fits` file whose header cannot be read degrades to the
name-inferred exposure with all other fields null, and a non-numeric
`GAIN` header string yields a null gain. -/
theorem c8_read_meta_degrades_witness :
    readMeta "corrupt_0.001s.fits" ⟨none, none⟩
        = ⟨some (1/1000), none, none, none, none⟩
    ∧ (fitsMeta (some [("GAIN", .str "N/A")]) "x.fits").gain = none := by
  constructor
  · have h := c8_read_meta_degrades.1 "corrupt_0.001s.fits" ⟨none, none⟩
      (by decide) rfl
    rw [h]
    decide
  · exact c8_read_meta_degrades.2.2.2.2.1 [("GAIN", .str "N/A")] "x.fits" "N/A"
      (by decide) (by decide)

/-- C7 counterexample: the code applies the trailing `<number>s` pattern
before the `EXPOSURE=` pattern — on `EXPOSURE=45_30s.fit` the code infers
30.0 while the claimed order (EXPOSURE token first) would give 45.0. -/
theorem c7_counterexample :
    inferExposureFromName "EXPOSURE=45_30s.fit" = some 30
    ∧ specOrderInfer "EXPOSURE=45_30s.fit" = some 45
    ∧ inferExposureFromName "EXPOSURE=45_30s.fit"
        ≠ specOrderInfer "EXPOSURE=45_30s.fit" := by
  exact ⟨by decide, by decide, by decide⟩

/-- C7 amended: header aliases win (a numeric header exposure is reported
even when the filename encodes a different one); only when no header
yields a numeric exposure are the three filename patterns applied, in the
order trailing `<number>s`, then `EXPOSURE` token, then `S<number>s`,
first successful match winning; otherwise the exposure is null. -/
theorem c7_exposure_resolution :
    (∀ h path q, coerceFloat (hdrGet h keysExptime) = some q →
        (fitsMeta (some h) path).exposure = some q)
    ∧ (∀ h path, coerceFloat (hdrGet h keysExptime) = none →
        (fitsMeta (some h) path).exposure = inferExposureFromName path)
    ∧ (∀ path g, searchNumS none (pyBasename path).data = some g →
        inferExposureFromName path = some (numVal g.1 g.2))
    ∧ (∀ path g, searchNumS none (pyBasename path).data = none →
        searchExposureTok (pyBasename path).data = some g →
        inferExposureFromName path = some (numVal g.1 g.2))
    ∧ (∀ path g, searchNumS none (pyBasename path).data = none →
        searchExposureTok (pyBasename path).data = none →
        searchSTok none (pyBasename path).data = some g →
        inferExposureFromName path = some (numVal g.1 g.2))
    ∧ (∀ path, searchNumS none (pyBasename path).data = none →
        searchExposureTok (pyBasename path).data = none →
        searchSTok none (pyBasename path).data = none →
        inferExposureFromName path = none) := by
  refine ⟨?_, ?_, ?_, ?_, ?_, ?_⟩
  · intro h path q hq
    simp only [fitsMeta, hq]
  · intro h path hco
    simp only [fitsMeta, hco]
  · intro path g h1
    simp only [inferExposureFromName, h1]
  · intro path g h1 h2
    simp only [inferExposureFromName, h1, h2]
  · intro path g h1 h2 h3
    simp only [inferExposureFromName, h1, h2, h3]
    rfl
  · intro path h1 h2 h3
    simp only [inferExposureFromName, h1, h2, h3]
    rfl

/-- C7 witness: the claim's round-trip — header exposure 30.0 with a
filename encoding `_45s` reports 30.0 (while name inference alone would
give 45.0). -/
theorem c7_exposure_resolution_witness :
    (fitsMeta (some [("EXPTIME", .num 30)]) "flat_45s.fit").exposure = some 30
    ∧ inferExposureFromName "flat_45s.fit" = some 45 := by
  constructor
  · exact c7_exposure_resolution.1 [("EXPTIME", .num 30)] "flat_45s.fit" 30 (by decide)
  · decide

end ClaimTheorems

theorem pickBest_mem (l : List CatEntry) (want : Acq) (m : MatchCfg) (b : CatEntry)
    (h : pickBest l want m = some b) : b ∈ l := by
  cases l with
  | nil => simp [pickBest] at h
  | cons c0 rest =>
    simp only [pickBest, Option.some.injEq] at h
    subst h
    rcases List.mem_cons.mp (bestLoop_mem want m c0 (-1) (c0 :: rest)) with h2 | h2
    · rw [h2]
      exact List.mem_cons_self _ _
    · exact h2

theorem pickBest_eq_none_iff (l : List CatEntry) (want : Acq) (m : MatchCfg) :
    pickBest l want m = none ↔ l = [] := by
  cases l <;> simp [pickBest]

theorem pickBest_of_ne_nil (l : List CatEntry) (want : Acq) (m : MatchCfg)
    (h : l ≠ []) : ∃ b, pickBest l want m = some b ∧ b ∈ l := by
  cases hl : pickBest l want m with
  | none => exact absurd ((pickBest_eq_none_iff l want m).mp hl) h
  | some b => exact ⟨b, rfl, pickBest_mem l want m b hl⟩

theorem mem_entriesAt (cats : List CatEntry) (t : DarkType) (k : ℤ) (e : CatEntry) :
    e ∈ entriesAt cats t k ↔ e ∈ cats ∧ e.type = t ∧ kexpZ e.exposure = k := by
  simp [entriesAt, List.mem_filter, and_assoc]

theorem entriesAt_eq_nil_iff (cats : List CatEntry) (t : DarkType) (k : ℤ) :
    entriesAt cats t k = [] ↔ ∀ e ∈ cats, e.type = t → kexpZ e.exposure ≠ k := by
  constructor
  · intro h e he ht hk
    have : e ∈ entriesAt cats t k := (mem_entriesAt cats t k e).mpr ⟨he, ht, hk⟩
    rw [h] at this
    exact List.not_mem_nil e this
  · intro h
    refine List.filter_eq_nil_iff.mpr (fun e he => ?_)
    simp only [Bool.and_eq_true, decide_eq_true_eq, not_and]
    exact fun ht => h e he ht

theorem no_entries_at_key (cats : List CatEntry) (k : ℤ)
    (h1 : entriesAt cats .masterDarkFlat k = [])
    (h2 : entriesAt cats .darkFlat k = [])
    (h3 : entriesAt cats .masterDark k = [])
    (h4 : entriesAt cats .dark k = []) :
    ∀ e ∈ cats, kexpZ e.exposure ≠ k := by
  intro e he hk
  cases ht : e.type
  case masterDarkFlat => exact (entriesAt_eq_nil_iff cats _ k).mp h1 e he ht hk
  case masterDark => exact (entriesAt_eq_nil_iff cats _ k).mp h3 e he ht hk
  case darkFlat => exact (entriesAt_eq_nil_iff cats _ k).mp h2 e he ht hk
  case dark => exact (entriesAt_eq_nil_iff cats _ k).mp h4 e he ht hk

section ClaimTheoremsB

attribute [local semireducible] Rat.mul Rat.inv Rat.add Rat.sub

/-- C2: dark-selection tier priority.  When a MASTERDARKFLAT exists at the
target's rounded exposure, selection returns one of those entries with
`optimize = false` and performs no synthesis (no `integrateToMaster`
call), even when DARKFLAT frames also exist there; and more generally the
tiers fire in the strict order master dark-flat, dark-flat stack, master
dark, dark stack, nearest-exposure fallback, first success winning. -/
theorem c2_tier_priority (exp : ℚ) (want : Acq) (cats : List CatEntry) (env : PickEnv) :
    (entriesAt cats .masterDarkFlat (kexpZ exp) ≠ [] →
      ∃ s, pickDarkFor exp want cats env = (some s, [])
        ∧ s.optimize = false ∧ s.kind = "MasterDarkFlat(exact)"
        ∧ ∃ e ∈ entriesAt cats .masterDarkFlat (kexpZ exp), s.path = e.path)
    ∧ (entriesAt cats .masterDarkFlat (kexpZ exp) = [] →
        entriesAt cats .darkFlat (kexpZ exp) ≠ [] →
        pickDarkFor exp want cats env =
          (some ⟨joinPathJS env.cacheDir
              ("MasterDarkFlat_" ++ kexpStr (kexpZ exp) ++ "s.xisf"),
            false, "MasterDarkFlat(built)"⟩,
           [joinPathJS env.cacheDir
              ("MasterDarkFlat_" ++ kexpStr (kexpZ exp) ++ "s.xisf")]))
    ∧ (entriesAt cats .masterDarkFlat (kexpZ exp) = [] →
        entriesAt cats .darkFlat (kexpZ exp) = [] →
        entriesAt cats .masterDark (kexpZ exp) ≠ [] →
        ∃ s, pickDarkFor exp want cats env = (some s, [])
          ∧ s.optimize = false ∧ s.kind = "MasterDark(exact)"
          ∧ ∃ e ∈ entriesAt cats .masterDark (kexpZ exp), s.path = e.path)
    ∧ (entriesAt cats .masterDarkFlat (kexpZ exp) = [] →
        entriesAt cats .darkFlat (kexpZ exp) = [] →
        entriesAt cats .masterDark (kexpZ exp) = [] →
        entriesAt cats .dark (kexpZ exp) ≠ [] →
        pickDarkFor exp want cats env =
          (some ⟨joinPathJS env.cacheDir
              ("MasterDark_" ++ kexpStr (kexpZ exp) ++ "s.xisf"),
            false, "MasterDark(built)"⟩,
           [joinPathJS env.cacheDir
              ("MasterDark_" ++ kexpStr (kexpZ exp) ++ "s.xisf")]))
    ∧ (entriesAt cats .masterDarkFlat (kexpZ exp) = [] →
        entriesAt cats .darkFlat (kexpZ exp) = [] →
        entriesAt cats .masterDark (kexpZ exp) = [] →
        entriesAt cats .dark (kexpZ exp) = [] →
        ∀ s bs, pickDarkFor exp want cats env = (some s, bs) →
          s.kind = "MasterDark(nearest+optimize)" ∧ s.optimize = true
            ∧ env.allowNearest = true) := by
  have emdf := lookupBin_groupByExp cats .masterDarkFlat (kexpZ exp)
  have edf := lookupBin_groupByExp cats .darkFlat (kexpZ exp)
  have emd := lookupBin_groupByExp cats .masterDark (kexpZ exp)
  have ed := lookupBin_groupByExp cats .dark (kexpZ exp)
  refine ⟨?_, ?_, ?_, ?_, ?_⟩
  · intro h1
    obtain ⟨b, hpb, hbm⟩ := pickBest_of_ne_nil _ want env.matchCfg (emdf ▸ h1)
    refine ⟨⟨b.path, false, "MasterDarkFlat(exact)"⟩, ?_, rfl, rfl,
      ⟨b, emdf ▸ hbm, rfl⟩⟩
    unfold pickDarkFor
    rw [hpb]
  · intro h1 h2
    have hnone : pickBest (lookupBin (groupByExp cats .masterDarkFlat) (kexpZ exp))
        want env.matchCfg = none := by
      rw [emdf, h1]
      rfl
    have hdf : (!(lookupBin (groupByExp cats .darkFlat) (kexpZ exp)).isEmpty) = true := by
      rw [edf]
      cases hx : entriesAt cats .darkFlat (kexpZ exp) with
      | nil => exact absurd hx h2
      | cons a l => rfl
    unfold pickDarkFor
    rw [hnone, hdf]
    rfl
  · intro h1 h2 h3
    have hnone : pickBest (lookupBin (groupByExp cats .masterDarkFlat) (kexpZ exp))
        want env.matchCfg = none := by
      rw [emdf, h1]
      rfl
    have hdf : (!(lookupBin (groupByExp cats .darkFlat) (kexpZ exp)).isEmpty) = false := by
      rw [edf, h2]
      rfl
    obtain ⟨b, hpb, hbm⟩ := pickBest_of_ne_nil _ want env.matchCfg (emd ▸ h3)
    refine ⟨⟨b.path, false, "MasterDark(exact)"⟩, ?_, rfl, rfl, ⟨b, emd ▸ hbm, rfl⟩⟩
    unfold pickDarkFor
    rw [hnone, hdf, hpb]
    rfl
  · intro h1 h2 h3 h4
    have hnone : pickBest (lookupBin (groupByExp cats .masterDarkFlat) (kexpZ exp))
        want env.matchCfg = none := by
      rw [emdf, h1]
      rfl
    have hdf : (!(lookupBin (groupByExp cats .darkFlat) (kexpZ exp)).isEmpty) = false := by
      rw [edf, h2]
      rfl
    have hnone2 : pickBest (lookupBin (groupByExp cats .masterDark) (kexpZ exp))
        want env.matchCfg = none := by
      rw [emd, h3]
      rfl
    have hd : (!(lookupBin (groupByExp cats .dark) (kexpZ exp)).isEmpty) = true := by
      rw [ed]
      cases hx : entriesAt cats .dark (kexpZ exp) with
      | nil => exact absurd hx h4
      | cons a l => rfl
    unfold pickDarkFor
    rw [hnone, hdf, hnone2, hd]
    rfl
  · intro h1 h2 h3 h4 s bs h
    have hnone : pickBest (lookupBin (groupByExp cats .masterDarkFlat) (kexpZ exp))
        want env.matchCfg = none := by
      rw [emdf, h1]
      rfl
    have hdf : (!(lookupBin (groupByExp cats .darkFlat) (kexpZ exp)).isEmpty) = false := by
      rw [edf, h2]
      rfl
    have hnone2 : pickBest (lookupBin (groupByExp cats .masterDark) (kexpZ exp))
        want env.matchCfg = none := by
      rw [emd, h3]
      rfl
    have hd : (!(lookupBin (groupByExp cats .dark) (kexpZ exp)).isEmpty) = false := by
      rw [ed, h4]
      rfl
    unfold pickDarkFor at h
    rw [hnone, hdf, hnone2, hd] at h
    simp only [Bool.false_eq_true, if_false] at h
    cases han : env.allowNearest with
    | false =>
      rw [han] at h
      simp at h
    | true =>
      rw [han] at h
      simp only [if_true] at h
      by_cases hemp : (allMDOf cats env).isEmpty = true
      · rw [if_pos hemp] at h
        exact absurd (congrArg Prod.fst h) (by simp)
      · rw [if_neg hemp] at h
        have hs := congrArg Prod.fst h
        simp only [Prod.fst] at hs
        have hs2 := Option.some.inj hs
        rw [← hs2]
        exact ⟨rfl, rfl, rfl⟩

/-- C2 witness: a catalog with a MASTERDARKFLAT and a 3-frame DARKFLAT
stack at 60 s — selection returns the master dark-flat, optimize off,
with no synthesis request. -/
theorem c2_tier_priority_witness :
    ∃ s, pickDarkFor 60 Acq.nullAcq c2cats cDefaultEnv = (some s, [])
      ∧ s.optimize = false ∧ s.kind = "MasterDarkFlat(exact)"
      ∧ ∃ e ∈ entriesAt c2cats .masterDarkFlat (kexpZ 60), s.path = e.path :=
  (c2_tier_priority 60 Acq.nullAcq c2cats cDefaultEnv).1 (by decide)

end ClaimTheoremsB

/-- C4: a selection carries `optimize = true` (requiresOptimization) iff it
was produced by the nearest-exposure fallback tier — i.e. iff the fallback
is enabled and no catalog entry of any kind sits at the target's rounded
exposure; and in that tier the selected candidate minimises the numeric
distance between its exposure and the target over all available or
synthesizable master darks. -/
theorem c4_optimize_iff_nearest (exp : ℚ) (want : Acq) (cats : List CatEntry)
    (env : PickEnv) (s : Selection) (bs : List String)
    (h : pickDarkFor exp want cats env = (some s, bs)) :
    (s.optimize = true ↔
      (env.allowNearest = true ∧ ∀ e ∈ cats, kexpZ e.exposure ≠ kexpZ exp))
    ∧ (s.optimize = true →
        ∃ c ∈ allMDOf cats env, s.path = c.path
          ∧ ∀ c2 ∈ allMDOf cats env, |c.exposure - exp| ≤ |c2.exposure - exp|) := by
  have emdf := lookupBin_groupByExp cats .masterDarkFlat (kexpZ exp)
  have edf := lookupBin_groupByExp cats .darkFlat (kexpZ exp)
  have emd := lookupBin_groupByExp cats .masterDark (kexpZ exp)
  have ed := lookupBin_groupByExp cats .dark (kexpZ exp)
  unfold pickDarkFor at h
  cases hpb : pickBest (lookupBin (groupByExp cats .masterDarkFlat) (kexpZ exp))
      want env.matchCfg with
  | some b =>
    rw [hpb] at h
    simp only [Prod.mk.injEq, Option.some.injEq] at h
    have hopt : s.optimize = false := by rw [← h.1]
    have hbm : b ∈ entriesAt cats .masterDarkFlat (kexpZ exp) :=
      emdf ▸ pickBest_mem _ want env.matchCfg b hpb
    obtain ⟨hbc, _, hbk⟩ := (mem_entriesAt cats _ _ b).mp hbm
    constructor
    · rw [hopt]
      simp only [Bool.false_eq_true, false_iff, not_and]
      intro _ hall
      exact hall b hbc hbk
    · intro hcontra
      rw [hopt] at hcontra
      exact absurd hcontra (by simp)
  | none =>
    rw [hpb] at h
    have hmdfnil : entriesAt cats .masterDarkFlat (kexpZ exp) = [] :=
      emdf ▸ (pickBest_eq_none_iff _ want env.matchCfg).mp hpb
    by_cases hdf : (!(lookupBin (groupByExp cats .darkFlat) (kexpZ exp)).isEmpty) = true
    · rw [if_pos hdf] at h
      simp only [Prod.mk.injEq, Option.some.injEq] at h
      have hopt : s.optimize = false := by rw [← h.1]
      have hdfne : entriesAt cats .darkFlat (kexpZ exp) ≠ [] := by
        rw [← edf]
        intro hx
        rw [hx] at hdf
        exact absurd hdf (by simp)
      obtain ⟨e0, he0⟩ := List.exists_mem_of_ne_nil _ hdfne
      obtain ⟨he0c, _, he0k⟩ := (mem_entriesAt cats _ _ e0).mp he0
      constructor
      · rw [hopt]
        simp only [Bool.false_eq_true, false_iff, not_and]
        intro _ hall
        exact hall e0 he0c he0k
      · intro hcontra
        rw [hopt] at hcontra
        exact absurd hcontra (by simp)
    · rw [if_neg hdf] at h
      have hdfnil : entriesAt cats .darkFlat (kexpZ exp) = [] := by
        rw [← edf]
        rcases hx : lookupBin (groupByExp cats .darkFlat) (kexpZ exp) with _ | ⟨a, l⟩
        · rfl
        · rw [hx] at hdf
          exact absurd rfl hdf
      cases hpb2 : pickBest (lookupBin (groupByExp cats .masterDark) (kexpZ exp))
          want env.matchCfg with
      | some b2 =>
        rw [hpb2] at h
        simp only [Prod.mk.injEq, Option.some.injEq] at h
        have hopt : s.optimize = false := by rw [← h.1]
        have hbm : b2 ∈ entriesAt cats .masterDark (kexpZ exp) :=
          emd ▸ pickBest_mem _ want env.matchCfg b2 hpb2
        obtain ⟨hbc, _, hbk⟩ := (mem_entriesAt cats _ _ b2).mp hbm
        constructor
        · rw [hopt]
          simp only [Bool.false_eq_true, false_iff, not_and]
          intro _ hall
          exact hall b2 hbc hbk
        · intro hcontra
          rw [hopt] at hcontra
          exact absurd hcontra (by simp)
      | none =>
        rw [hpb2] at h
        have hmdnil : entriesAt cats .masterDark (kexpZ exp) = [] :=
          emd ▸ (pickBest_eq_none_iff _ want env.matchCfg).mp hpb2
        by_cases hd : (!(lookupBin (groupByExp cats .dark) (kexpZ exp)).isEmpty) = true
        · rw [if_pos hd] at h
          simp only [Prod.mk.injEq, Option.some.injEq] at h
          have hopt : s.optimize = false := by rw [← h.1]
          have hdne : entriesAt cats .dark (kexpZ exp) ≠ [] := by
            rw [← ed]
            intro hx
            rw [hx] at hd
            exact absurd hd (by simp)
          obtain ⟨e0, he0⟩ := List.exists_mem_of_ne_nil _ hdne
          obtain ⟨he0c, _, he0k⟩ := (mem_entriesAt cats _ _ e0).mp he0
          constructor
          · rw [hopt]
            simp only [Bool.false_eq_true, false_iff, not_and]
            intro _ hall
            exact hall e0 he0c he0k
          · intro hcontra
            rw [hopt] at hcontra
            exact absurd hcontra (by simp)
        · rw [if_neg hd] at h
          have hdnil : entriesAt cats .dark (kexpZ exp) = [] := by
            rw [← ed]
            rcases hx : lookupBin (groupByExp cats .dark) (kexpZ exp) with _ | ⟨a, l⟩
            · rfl
            · rw [hx] at hd
              exact absurd rfl hd
          have hall : ∀ e ∈ cats, kexpZ e.exposure ≠ kexpZ exp :=
            no_entries_at_key cats (kexpZ exp) hmdfnil hdfnil hmdnil hdnil
          cases han : env.allowNearest with
          | false =>
            rw [han] at h
            simp at h
          | true =>
            rw [han] at h
            simp only [if_true] at h
            by_cases hemp : (allMDOf cats env).isEmpty = true
            · rw [if_pos hemp] at h
              exact absurd (congrArg Prod.fst h) (by simp)
            · rw [if_neg hemp] at h
              simp only [Prod.mk.injEq, Option.some.injEq] at h
              have hopt : s.optimize = true := by rw [← h.1]
              have hne : allMDOf cats env ≠ [] := by
                intro hx
                rw [hx] at hemp
                exact hemp rfl
              rcases hsort : nearestSorted exp cats env with _ | ⟨c, rest⟩
              · obtain ⟨x, hx⟩ := List.exists_mem_of_ne_nil _ hne
                have hxs : x ∈ nearestSorted exp cats env := by
                  unfold nearestSorted
                  exact (mem_sortedBy _ _ x).mpr hx
                rw [hsort] at hxs
                exact absurd hxs (List.not_mem_nil x)
              · have hcmem : c ∈ allMDOf cats env := by
                  have hmemc : c ∈ nearestSorted exp cats env := by
                    rw [hsort]
                    exact List.mem_cons_self _ _
                  unfold nearestSorted at hmemc
                  exact (mem_sortedBy _ _ c).mp hmemc
                have hsort2 := hsort
                unfold nearestSorted at hsort2
                have hmin := head_sortedOn_min (fun c => |c.exposure - exp|) _
                  (fun a b => by simp) (allMDOf cats env) c rest hsort2
                constructor
                · rw [hopt]
                  simp only [true_iff]
                  exact ⟨trivial, hall⟩
                · intro _
                  refine ⟨c, hcmem, ?_, hmin⟩
                  rw [← h.1, hsort]
                  rfl

section ClaimTheoremsC

attribute [local semireducible] Rat.mul Rat.inv Rat.add Rat.sub

/-- C4 witness: MASTERDARK entries at 60 s and 300 s only, target 120 s —
the 60 s dark is selected and marked `requiresOptimization = true`, and
the theorem's characterisation applies to it. -/
theorem c4_optimize_iff_nearest_witness :
    pickDarkFor 120 Acq.nullAcq c4cats cDefaultEnv = (some c4sel, [])
    ∧ (c4sel.optimize = true ↔
        (cDefaultEnv.allowNearest = true ∧ ∀ e ∈ c4cats, kexpZ e.exposure ≠ kexpZ 120))
    ∧ (c4sel.optimize = true →
        ∃ c ∈ allMDOf c4cats cDefaultEnv, c4sel.path = c.path
          ∧ ∀ c2 ∈ allMDOf c4cats cDefaultEnv,
              |c.exposure - 120| ≤ |c2.exposure - 120|) := by
  have h : pickDarkFor 120 Acq.nullAcq c4cats cDefaultEnv = (some c4sel, []) := by decide
  exact ⟨h, (c4_optimize_iff_nearest 120 Acq.nullAcq c4cats cDefaultEnv c4sel [] h).1,
    (c4_optimize_iff_nearest 120 Acq.nullAcq c4cats cDefaultEnv c4sel [] h).2⟩

end ClaimTheoremsC

section ClaimTheoremsD

attribute [local semireducible] Rat.mul Rat.inv Rat.add Rat.sub

/-- A temperature distance, when present, is nonnegative (it is an absolute
value). -/
theorem tempDelta_nonneg (x y : Option ℚ) (d : ℚ) (h : tempDelta x y = some d) :
    0 ≤ d := by
  unfold tempDelta at h
  cases x <;> cases y <;> simp at h
  rw [← h]
  exact abs_nonneg _

/-- The sequential conditional additions of `metaScore` compute the same
value as the spec's plain sum of the four bonuses. -/
theorem metaScore_eq_claimScore (c want : Acq) (m : MatchCfg) :
    metaScore c want m = claimScore c want m := by
  unfold metaScore claimScore
  cases htd : tempDelta c.temp want.temp <;> (dsimp only; split_ifs <;> ring)

/-- Under the one match policy the Python side ever ships
(`maxTempDeltaC = 5`), every score is nonnegative: the temperature bonus is
at least `1.5 - 5*0.2 = 0.5` whenever it is granted. -/
theorem metaScore_nonneg (c want : Acq) : 0 ≤ metaScore c want cfgMatch := by
  unfold metaScore
  cases htd : tempDelta c.temp want.temp with
  | none => dsimp only; split_ifs <;> norm_num
  | some dt =>
    have hdt := tempDelta_nonneg c.temp want.temp dt htd
    dsimp only
    split_ifs with h1 h2 h3 h4 <;>
      simp_all only [cfgMatch, Bool.true_and, Bool.and_eq_true, decide_eq_true_eq] <;>
      linarith

/-- C3: the similarity score equals the sum of the four bonuses (+3 enforced
equal binning, +2 close gain, +2 close offset, `1.5 - 0.2*dt` in-window
temperature), every score is nonnegative under the policy the program
actually ships, and — whenever some candidate beats the best-loop's `-1`
sentinel, as any candidate does under the shipped policy — the selection
over the same-exposure MASTERDARKFLAT candidates returns the first
candidate of maximal score, in catalog order: every earlier candidate
scores strictly less and no candidate scores more. -/
theorem c3_score_and_argmax :
    (∀ (c want : Acq) (m : MatchCfg), metaScore c want m = claimScore c want m)
    ∧ (∀ (c want : Acq), 0 ≤ metaScore c want cfgMatch)
    ∧ ∀ (exp : ℚ) (want : Acq) (cats : List CatEntry) (env : PickEnv),
        entriesAt cats .masterDarkFlat (kexpZ exp) ≠ [] →
        (∀ c ∈ entriesAt cats .masterDarkFlat (kexpZ exp),
          -1 < metaScore c.acqOf want env.matchCfg) →
        ∃ l1 b l2, entriesAt cats .masterDarkFlat (kexpZ exp) = l1 ++ b :: l2
          ∧ (pickDarkFor exp want cats env).1
              = some ⟨b.path, false, "MasterDarkFlat(exact)"⟩
          ∧ (∀ x ∈ l1,
              metaScore x.acqOf want env.matchCfg < metaScore b.acqOf want env.matchCfg)
          ∧ ∀ x ∈ entriesAt cats .masterDarkFlat (kexpZ exp),
              metaScore x.acqOf want env.matchCfg ≤ metaScore b.acqOf want env.matchCfg := by
  refine ⟨metaScore_eq_claimScore, metaScore_nonneg, ?_⟩
  intro exp want cats env hne hpos
  have emdf := lookupBin_groupByExp cats .masterDarkFlat (kexpZ exp)
  rcases hE : entriesAt cats .masterDarkFlat (kexpZ exp) with _ | ⟨c0, rest⟩
  · exact absurd hE hne
  · have hlk : lookupBin (groupByExp cats .masterDarkFlat) (kexpZ exp) = c0 :: rest := by
      rw [emdf, hE]
    have hc0 : -1 < metaScore c0.acqOf want env.matchCfg :=
      hpos c0 (by rw [hE]; exact List.mem_cons_self _ _)
    have hbl : bestLoop want env.matchCfg c0 (-1) (c0 :: rest)
        = firstMaxBy (fun c => metaScore c.acqOf want env.matchCfg) c0 rest := by
      simp only [bestLoop]
      rw [if_pos hc0]
      exact bestLoop_eq_firstMaxBy want env.matchCfg c0 rest
    obtain ⟨l1, l2, hsplit, hlt⟩ :=
      firstMaxBy_split (fun c => metaScore c.acqOf want env.matchCfg) c0 rest
    refine ⟨l1, firstMaxBy (fun c => metaScore c.acqOf want env.matchCfg) c0 rest, l2,
      hsplit, ?_, hlt, ?_⟩
    · unfold pickDarkFor
      rw [hlk]
      simp only [pickBest]
      rw [hbl]
    · intro x hx
      have hle := le_firstMaxBy (fun c => metaScore c.acqOf want env.matchCfg) c0 rest x hx
      exact hle

/-- C3 counterexample: under a match policy with a 100-degree temperature
window, a far-off temperature makes the bonus `1.5 - 0.2*dt` drop below the
best-loop's `-1` sentinel, so no candidate is ever adopted and the loop
keeps its initial first candidate: here "p1" (score `-8.5`) is selected
although "p2" scores strictly higher (`-2.5`), refuting "highest score
wins" as stated for every match policy. -/
theorem c3_counterexample :
    (pickDarkFor 10 c3want c3cats c3env).1
      = some ⟨"p1", false, "MasterDarkFlat(exact)"⟩
    ∧ metaScore (Acq.mk none none none (some 50)) c3want c3env.matchCfg
      < metaScore (Acq.mk none none none (some 20)) c3want c3env.matchCfg := by
  constructor <;> decide

/-- C3 witness: on a concrete two-candidate catalog under the shipped
policy, the hypotheses hold by computation and the selected entry is the
higher-scoring "q2". -/
theorem c3_score_and_argmax_witness :
    (∃ l1 b l2, entriesAt c3wcats .masterDarkFlat (kexpZ 10) = l1 ++ b :: l2
      ∧ (pickDarkFor 10 c3wwant c3wcats cDefaultEnv).1
          = some ⟨b.path, false, "MasterDarkFlat(exact)"⟩
      ∧ (∀ x ∈ l1,
          metaScore x.acqOf c3wwant cDefaultEnv.matchCfg
            < metaScore b.acqOf c3wwant cDefaultEnv.matchCfg)
      ∧ ∀ x ∈ entriesAt c3wcats .masterDarkFlat (kexpZ 10),
          metaScore x.acqOf c3wwant cDefaultEnv.matchCfg
            ≤ metaScore b.acqOf c3wwant cDefaultEnv.matchCfg)
    ∧ (pickDarkFor 10 c3wwant c3wcats cDefaultEnv).1
        = some ⟨"q2", false, "MasterDarkFlat(exact)"⟩ :=
  ⟨c3_score_and_argmax.2.2 10 c3wwant c3wcats cDefaultEnv (by decide) (by decide),
   by decide⟩

end ClaimTheoremsD

end FlatParse
